import Mathlib

/- Verification of the Fargo-Ledger core import/auto-categorization engine
   (src/importer.py and the rule/suggestion endpoints of src/api.py).

   Modelling conventions:
   * Python floats are modelled by exact scaled integers: monetary amounts in
     cents (bank CSV amounts are cent-precision, so `f"{amount:.2f}"` is the
     exact rendering), confidences in units of 1/10000 (the code only stores
     values produced by `round(x, 4)`).
   * Python strings are Lean Strings; the string primitives used by the code
     (upper, strip, split, substring test, decimal rendering) are modelled by
     structural recursion over the underlying character list.
   * SHA-256 itself is an external primitive: it is abstracted as a function
     `sha : String -> List Nat` giving the raw digest bytes, and the code's
     `.hexdigest()` is modelled concretely by `hexEncode`.
   * Database sessions are modelled by explicit record lists; object identity
     of a loaded row is its position in the list. -/

-- ══════════ generic helpers: models of Python string/number primitives ══════════

/-- Decimal digit character. -/
def digitChar (d : Nat) : Char := Char.ofNat (48 + d)

/-- Decimal rendering of a natural number (fuelled structural recursion);
    models the digits Python prints for a nonnegative int. -/
def natReprAux : Nat → Nat → List Char
  | 0, _ => []
  | fuel + 1, n => if n < 10 then [digitChar n] else natReprAux fuel (n / 10) ++ [digitChar (n % 10)]

/-- Model of Python str(n) / f-string rendering of a nonnegative int. -/
def natRepr (n : Nat) : String := ⟨natReprAux (n + 1) n⟩

/-- Lower-case hex digit character, as used by hashlib hexdigest. -/
def hexChar (d : Nat) : Char := if d < 10 then Char.ofNat (48 + d) else Char.ofNat (87 + d)

/-- Hex encoding of a byte list; models sha256(...).hexdigest() applied to the
    raw digest bytes.  Real digest bytes are < 256, so the `% 16` on the high
    nibble is a no-op there. -/
def hexEncode (bytes : List Nat) : String :=
  ⟨bytes.foldr (fun b acc => hexChar (b / 16 % 16) :: hexChar (b % 16) :: acc) []⟩

/-- Python truthiness of an optional string (both None and "" are falsy). -/
def strTruthy : Option String → Bool
  | none => false
  | some s => s != ""

/-- Python `x or y` on optional strings (first truthy operand wins). -/
def orTruthy (a b : Option String) : Option String := if strTruthy a then a else b

/-- Model of str.upper() (the data is ASCII; char-wise case mapping). -/
def upperStr (s : String) : String := ⟨s.data.map Char.toUpper⟩

/-- Python str.strip() whitespace class (ASCII part). -/
def isSpaceChar (c : Char) : Bool :=
  c == ' ' || c == '\t' || c == '\n' || c == '\r' || c.toNat == 11 || c.toNat == 12

/-- Model of str.strip(). -/
def trimStr (s : String) : String :=
  ⟨((s.data.dropWhile isSpaceChar).reverse.dropWhile isSpaceChar).reverse⟩

/-- Split a char list at separator chars.  Pieces may be empty; the importer
    discards empty tokens afterwards, so the collapsing of separator runs done
    by the regex `+` makes no difference to the surviving tokens. -/
def splitChars (p : Char → Bool) : List Char → List (List Char)
  | [] => [[]]
  | c :: cs =>
    if p c then [] :: splitChars p cs
    else
      match splitChars p cs with
      | [] => [[c]]
      | t :: ts => (c :: t) :: ts

/-- `prefixAt needle hay`: needle occurs at the start of hay. -/
def prefixAt : List Char → List Char → Bool
  | [], _ => true
  | _ :: _, [] => false
  | a :: as, b :: bs => a == b && prefixAt as bs

/-- `infixAt needle hay`: needle occurs somewhere in hay. -/
def infixAt (needle : List Char) : List Char → Bool
  | [] => prefixAt needle []
  | b :: bs => prefixAt needle (b :: bs) || infixAt needle bs

/-- Model of Python `needle in hay` for strings: substring containment. -/
def strIn (needle hay : String) : Bool := infixAt needle.data hay.data

/-- Lexicographic (code-point) order on strings, as Python sorted() uses. -/
def lexLe : List Char → List Char → Bool
  | [], _ => true
  | _ :: _, [] => false
  | a :: as, b :: bs => if a == b then lexLe as bs else decide (a < b)

/-- Insertion step of the sort used to model Python sorted(). -/
def insertSorted (a : String) : List String → List String
  | [] => [a]
  | b :: l => if lexLe a.data b.data then a :: b :: l else b :: insertSorted a l

/-- Model of Python sorted(...) on strings (a sort; which sorted permutation
    algorithm produced it is immaterial, the result is the same list). -/
def sortStrings (l : List String) : List String := l.foldr insertSorted []

/-- Apply f to the first element satisfying p, leave the rest unchanged
    (models mutating the row returned by query(...).first()). -/
def updateFirst {α : Type} (p : α → Bool) (f : α → α) : List α → List α
  | [] => []
  | a :: l => if p a then f a :: l else a :: updateFirst p f l

/-- Replace the element at index i by f of it (models mutating one loaded
    object among the rows of a query result). -/
def modifyIdx {α : Type} (f : α → α) : Nat → List α → List α
  | _, [] => []
  | 0, a :: l => f a :: l
  | n + 1, a :: l => a :: modifyIdx f n l

/-- Model of the f-string `{amount:.2f}` for a cent-precision amount: `cents`
    is the exact amount scaled by 100, rendered with a sign, the integer
    part, and exactly two decimal digits. -/
def formatCents (cents : Int) : String :=
  let sign := if cents < 0 then "-" else ""
  let n := cents.natAbs
  let frac := n % 100
  let fracStr := if frac < 10 then "0" ++ natRepr frac else natRepr frac
  sign ++ natRepr (n / 100) ++ "." ++ fracStr

/-- Round the integer fraction num/den (den > 0) to the nearest integer with
    ties to even: Python round()'s banker rounding, exact on these inputs. -/
def roundHalfEvenFrac (num den : Int) : Int :=
  let f := Int.fdiv num den
  let r := num - den * f
  if 2 * r < den then f
  else if den < 2 * r then f + 1
  else if f % 2 == 0 then f else f + 1

/-- `round(1.0 - corrected / max(assigned, 1), 4)` from api.py, stored scaled
    by 10000: the single formula behind every confidence the code writes. -/
def computeConfidence (corrected assigned : Nat) : Int :=
  let a : Int := max (assigned : Int) 1
  roundHalfEvenFrac (10000 * (a - (corrected : Int))) a

-- ══════════ data model (src/models.py JSON payloads, scaled as above) ══════════

structure SignRule where
  category : Option String
  project : Option String
deriving DecidableEq

structure BySign where
  income : SignRule
  expense : SignRule
deriving DecidableEq

/-- The JSON rule payload of a VendorInfo row, with the keys the rebuild
    writes (dict reads elsewhere in the code use defaults for these keys).
    `confidence` is the stored float scaled by 10000. -/
structure VendorRules where
  patterns : List String
  default_category : Option String
  default_project : Option String
  by_sign : Option BySign
  enabled : Bool
  assigned_count : Nat
  corrected_count : Nat
  confidence : Int
deriving DecidableEq

/-- models.VendorInfo (the columns the core logic reads). -/
structure VendorInfo where
  id : Nat
  account_id : Nat
  vendor_name : String
  rules : Option VendorRules
deriving DecidableEq

/-- One raw CSV row in the fixed 5-column Wells Fargo layout. -/
structure CsvRow where
  date : String
  amount : String
  star : String
  empty : String
  description : String
deriving DecidableEq

/-- models.Transaction.  Amounts in cents, dates as their normalized str()
    rendering; default column values as declared in models.py. -/
structure Transaction where
  id : String
  account_id : Nat
  transaction_date : String
  description : String
  amount : Int
  source_file : String
  raw_data : CsvRow
  category : Option String := none
  vendor : Option String := none
  project : Option String := none
  notes : Option String := none
  tags : Option (List String) := none
  tax_deductible : Bool := false
  is_transfer : Bool := false
  auto_categorized : Bool := false
  is_cleaned : Bool := false
deriving DecidableEq

/-- models.ImportSuggestion. -/
structure ImportSuggestion where
  id : Nat
  account_id : Nat
  vendor_info_id : Option Nat
  suggested_vendor : String
  suggested_category : Option String
  suggested_project : Option String
  pattern_matched : String
  transaction_ids : List String
  status : String
deriving DecidableEq

/-- The persistent store the core logic touches. -/
structure Db where
  transactions : List Transaction
  vendors : List VendorInfo
  suggestions : List ImportSuggestion
deriving DecidableEq

-- ══════════ src/importer.py ══════════

/-- importer._NOISE: words that appear in many bank descriptions but do not
    identify a vendor (Python set semantics: membership only). -/
def NOISE : List String :=
  ["LLC", "INC", "CO", "CORP", "LTD", "DBA",
   "THE", "AND", "OF", "FOR", "AT", "BY",
   "AUTHORIZED", "CHECKCARD", "DEBIT", "PURCHASE", "RECURRING",
   "PAYMENT", "PMTS", "PMT", "ACH", "POS", "PIN", "ATM", "TST",
   "ONLINE", "TRANSFER", "DEPOSIT", "WITHDRAWAL", "CHARGE",
   "WA", "CA", "TX", "FL", "NY", "OR", "AZ", "NV", "IL", "OH",
   "GA", "NC", "VA", "MA", "CO", "MN", "WI", "MO",
   "WWW", "COM", "NET", "ORG", "HTTP", "HTTPS",
   "SQU"]

/-- importer._ALL_DIGITS_RE: the token is one or more digits. -/
def isAllDigits (s : String) : Bool := !s.data.isEmpty && s.data.all (fun c => c.isDigit)

/-- importer._SPLIT_RE separator class: whitespace and the listed punctuation. -/
def isSepChar (c : Char) : Bool :=
  isSpaceChar c || (['*', '#', '@', '!', '-', '_', '/', '\\', '.', ',', '+', '&'].contains c)

/-- The `meaningful` token list computed inside extract_description_patterns. -/
def meaningfulTokens (description : String) : List String :=
  let desc := trimStr (upperStr description)
  let tokens := (splitChars isSepChar desc.data).map (fun t => String.mk t)
  tokens.filter (fun t => t != "" && decide (3 ≤ t.length) && !isAllDigits t && !NOISE.contains t)

/-- importer.extract_description_patterns. -/
def extract_description_patterns (description : String) : List String :=
  match meaningfulTokens description with
  | [] => []
  | [a] => [a]
  | a :: b :: _ => [a, a ++ " " ++ b]

/-- The per-candidate test of find_matching_vendor: some pattern of the rule
    matches the uppercased description (an empty pattern string is falsy in
    Python and is skipped). -/
def rulesHit (desc_upper : String) (r : VendorRules) : Bool :=
  r.patterns.any (fun p => p != "" && strIn (upperStr p) desc_upper)

/-- Maximal assigned_count among collected matches. -/
def maxSnd : List (VendorInfo × Nat) → Nat
  | [] => 0
  | e :: l => max e.2 (maxSnd l)

/-- importer.find_matching_vendor: collect every candidate with a matching
    pattern together with its assigned_count; the Python code then stable-sorts
    by decreasing count and returns the head, i.e. the first match attaining
    the maximal assigned_count (None when nothing matched). -/
def find_matching_vendor (description : String) (candidates : List VendorInfo) : Option VendorInfo :=
  let desc_upper := upperStr description
  let hits := candidates.filterMap (fun vi =>
    match vi.rules with
    | some r => if rulesHit desc_upper r then some (vi, r.assigned_count) else none
    | none => none)
  match hits.find? (fun e => e.2 == maxSnd hits) with
  | some e => some e.1
  | none => none

/-- importer.generate_base_hash: hexdigest of SHA-256 over
    f"{date_str}{desc}{float(amount):.2f}". -/
def generate_base_hash (sha : String → List Nat) (date_str desc : String) (cents : Int) : String :=
  hexEncode (sha (date_str ++ desc ++ formatCents cents))

/-- importer._CONFIDENCE_ASSIGN_THRESHOLD = 0.70 (scaled by 10000). -/
def CONFIDENCE_ASSIGN_THRESHOLD : Int := 7000

/-- importer._CONFIDENCE_CLEAN_THRESHOLD = 0.85 (scaled by 10000). -/
def CONFIDENCE_CLEAN_THRESHOLD : Int := 8500

/-- One accumulated suggestion group of import_csv_content's suggestions_map. -/
structure SuggGroup where
  vi : VendorInfo
  tx_ids : List String
  pattern : String
  category : Option String
  project : Option String
deriving DecidableEq

/-- The loop state of the row loop in import_csv_content: the transaction
    table as seen through the session, the two counters, the per-file
    base-hash occurrence counter, and the suggestion groups (an
    insertion-ordered map, as a Python dict is). -/
structure ImpState where
  txs : List Transaction
  imported : Nat
  skipped : Nat
  counts : String → Nat
  groups : List (Nat × SuggGroup)

structure ImportResult where
  imported : Nat
  skipped : Nat
  suggestions_created : Nat
deriving DecidableEq

/-- Create or extend the suggestions_map entry for a matched vendor. -/
def addGroup (groups : List (Nat × SuggGroup)) (vi : VendorInfo) (desc : String)
    (amount : Int) (tx_id : String) : List (Nat × SuggGroup) :=
  match groups.find? (fun g => g.1 == vi.id) with
  | some _ =>
    groups.map (fun g => if g.1 == vi.id then (g.1, { g.2 with tx_ids := g.2.tx_ids ++ [tx_id] }) else g)
  | none =>
    match vi.rules with
    | none => groups
    | some rules =>
      let sc_sp :=
        match rules.by_sign with
        | some bs =>
          let sign_rules := if 0 ≤ amount then bs.income else bs.expense
          (orTruthy sign_rules.category rules.default_category,
           orTruthy sign_rules.project rules.default_project)
        | none => (rules.default_category, rules.default_project)
      let desc_upper := upperStr desc
      let matched_pattern := (rules.patterns.find? (fun p => p != "" && strIn (upperStr p) desc_upper)).getD ""
      groups ++ [(vi.id, ⟨vi, [tx_id], matched_pattern, sc_sp.1, sc_sp.2⟩)]

/-- One iteration of the row loop in import_csv_content.  `pd` models
    pd.to_datetime(...).date() followed by str(); `pf` models float() on a
    cent-precision amount; both return none on a row-level parse failure,
    which the loop counts as skipped. -/
def importRow (sha : String → List Nat) (pd : String → Option String) (pf : String → Option Int)
    (cands : List VendorInfo) (account_id : Nat) (source_file : String)
    (st : ImpState) (row : CsvRow) : ImpState :=
  match pd row.date, pf row.amount with
  | some t_date, some amount =>
    let desc := trimStr row.description
    let base_hash := generate_base_hash sha t_date desc amount
    let occurrence := st.counts base_hash
    let counts := fun h => if h = base_hash then st.counts h + 1 else st.counts h
    let tx_id := base_hash ++ "-" ++ natRepr occurrence
    if st.txs.any (fun t => t.id == tx_id) then
      { st with counts := counts, skipped := st.skipped + 1 }
    else
      let st' : ImpState :=
        { st with
          counts := counts
          txs := st.txs ++ [{ id := tx_id, account_id := account_id, transaction_date := t_date,
                              description := desc, amount := amount, source_file := source_file,
                              raw_data := row }]
          imported := st.imported + 1 }
      match find_matching_vendor desc cands with
      | some vi => { st' with groups := addGroup st'.groups vi desc amount tx_id }
      | none => st'
  | _, _ => { st with skipped := st.skipped + 1 }

/-- The auto_candidates pre-filter of import_csv_content. -/
def autoCandidates (vendors : List VendorInfo) (account_id : Nat) : List VendorInfo :=
  (vendors.filter (fun vi => vi.account_id == account_id && vi.rules.isSome)).filter (fun vi =>
    match vi.rules with
    | some r => r.enabled && decide (CONFIDENCE_ASSIGN_THRESHOLD ≤ r.confidence) && !r.patterns.isEmpty
    | none => false)

/-- importer.import_csv_content on an already-parsed row list (pandas supplies
    the fixed 5-column split; a file that cannot be parsed at all raises
    before this logic runs).  `next_sugg_id` models the autoincrement primary
    key the database assigns to newly inserted ImportSuggestion rows. -/
def import_csv_content (sha : String → List Nat) (pd : String → Option String)
    (pf : String → Option Int) (rows : List CsvRow) (source_file : String)
    (db : Db) (account_id : Nat) (next_sugg_id : Nat) : ImportResult × Db :=
  let auto_candidates := autoCandidates db.vendors account_id
  let st := rows.foldl (importRow sha pd pf auto_candidates account_id source_file)
    { txs := db.transactions, imported := 0, skipped := 0, counts := fun _ => 0, groups := [] }
  let new_suggestions := st.groups.enum.map (fun e =>
    { id := next_sugg_id + e.1
      account_id := account_id
      vendor_info_id := some e.2.1
      suggested_vendor := e.2.2.vi.vendor_name
      suggested_category := e.2.2.category
      suggested_project := e.2.2.project
      pattern_matched := e.2.2.pattern
      transaction_ids := e.2.2.tx_ids
      status := "pending" : ImportSuggestion })
  ({ imported := st.imported, skipped := st.skipped, suggestions_created := new_suggestions.length },
   { transactions := st.txs, vendors := db.vendors, suggestions := db.suggestions ++ new_suggestions })

-- ══════════ src/api.py : transaction update with correction feedback ══════════

/-- schemas.TransactionUpdate with pydantic set-ness tracked: the outer Option
    is "was the field present in the request" (exclude_unset), the inner value
    is the field's value, which may itself be an explicit null. -/
structure TransactionUpdate where
  category : Option (Option String) := none
  vendor : Option (Option String) := none
  project : Option (Option String) := none
  notes : Option (Option String) := none
  tags : Option (Option (List String)) := none
  tax_deductible : Option (Option Bool) := none
  is_transfer : Option (Option Bool) := none
  is_cleaned : Option (Option Bool) := none
deriving DecidableEq

/-- The correction penalty applied to the old vendor's rule in
    update_transaction: corrected_count += 1, confidence recomputed, and the
    rule disabled when the new confidence drops below the 0.70 threshold. -/
def correctionStep (vi : VendorInfo) : VendorInfo :=
  match vi.rules with
  | none => vi
  | some r =>
    let corrected := r.corrected_count + 1
    let assigned := r.assigned_count
    let confidence := computeConfidence corrected assigned
    let r' : VendorRules := { r with corrected_count := corrected, confidence := confidence }
    let r' := if confidence < 7000 then { r' with enabled := false } else r'
    { vi with rules := some r' }

/-- The setattr loop at the end of update_transaction: a field is written only
    when its (possibly defaulted) value is not None, so an explicit null in
    the payload never clears a stored field.  The loop touches each column at
    most once, so it is one simultaneous record update. -/
def applyUpdateFields (tx : Transaction) (u : TransactionUpdate) : Transaction :=
  { tx with
    category := match u.category.join with | some v => some v | none => tx.category
    vendor := match u.vendor.join with | some v => some v | none => tx.vendor
    project := match u.project.join with | some v => some v | none => tx.project
    notes := match u.notes.join with | some v => some v | none => tx.notes
    tags := match u.tags.join with | some v => some v | none => tx.tags
    tax_deductible := match u.tax_deductible.join with | some v => v | none => tx.tax_deductible
    is_transfer := match u.is_transfer.join with | some v => v | none => tx.is_transfer
    is_cleaned := match u.is_cleaned.join with | some v => v | none => tx.is_cleaned }

/-- api.update_transaction on a transaction that was found (the 404 branch is
    outside the core).  Returns the updated transaction and vendor table. -/
def update_transaction (tx : Transaction) (u : TransactionUpdate) (vendors : List VendorInfo) :
    Transaction × List VendorInfo :=
  let vendors :=
    if tx.auto_categorized && u.vendor.isSome then
      match tx.vendor with
      | some old_vendor =>
        if old_vendor != "" && u.vendor.join != some old_vendor then
          updateFirst (fun vi => vi.account_id == tx.account_id && vi.vendor_name == old_vendor)
            correctionStep vendors
        else vendors
      | none => vendors
    else vendors
  let tx :=
    if tx.auto_categorized && (u.vendor.isSome || u.category.isSome || u.project.isSome) then
      { tx with auto_categorized := false }
    else tx
  (applyUpdateFields tx u, vendors)

-- ══════════ src/api.py : suggestion approval / dismissal ══════════

inductive ApiError
  | notFound
  | conflict
deriving DecidableEq

/-- schemas.SuggestionApproveBody (per-field overrides for an approval). -/
structure SuggestionApproveBody where
  vendor : Option String := none
  category : Option String := none
  project : Option String := none
deriving DecidableEq

/-- The per-record write of an approval: vendor/category/project are written
    only when truthy, auto_categorized is always set. -/
def applySuggestionValues (vendor category project : Option String) (t : Transaction) : Transaction :=
  let t := if strTruthy vendor then { t with vendor := vendor } else t
  let t := if strTruthy category then { t with category := category } else t
  let t := if strTruthy project then { t with project := project } else t
  { t with auto_categorized := true }

/-- Python int-or-None truthiness for the vendor_info_id column. -/
def natTruthy : Option Nat → Bool
  | none => false
  | some n => n != 0

/-- api.approve_suggestion.  On an error the HTTP layer aborts before commit,
    so the store is returned unchanged next to the error. -/
def approve_suggestion (db : Db) (suggestion_id : Nat) (body : Option SuggestionApproveBody) :
    Db × Except ApiError Unit :=
  match db.suggestions.find? (fun s => s.id == suggestion_id) with
  | none => (db, Except.error ApiError.notFound)
  | some s =>
    if s.status != "pending" then (db, Except.error ApiError.conflict)
    else
      let over := fun (g : SuggestionApproveBody → Option String) =>
        match body with
        | some b => if strTruthy (g b) then g b else none
        | none => none
      let vendor := orTruthy (over (fun b => b.vendor)) (some s.suggested_vendor)
      let category := orTruthy (over (fun b => b.category)) s.suggested_category
      let project := orTruthy (over (fun b => b.project)) s.suggested_project
      let tx_ids := s.transaction_ids
      let transactions :=
        if tx_ids.isEmpty then db.transactions
        else db.transactions.map (fun t =>
          if tx_ids.contains t.id then applySuggestionValues vendor category project t else t)
      let vendors :=
        if natTruthy s.vendor_info_id then
          updateFirst (fun vi => some vi.id == s.vendor_info_id)
            (fun vi =>
              match vi.rules with
              | some r => { vi with rules := some { r with assigned_count := r.assigned_count + tx_ids.length } }
              | none => vi) db.vendors
        else db.vendors
      let suggestions :=
        updateFirst (fun x => x.id == suggestion_id) (fun x => { x with status := "approved" }) db.suggestions
      ({ transactions := transactions, vendors := vendors, suggestions := suggestions }, Except.ok ())

/-- api.dismiss_suggestion. -/
def dismiss_suggestion (db : Db) (suggestion_id : Nat) : Db × Except ApiError Unit :=
  match db.suggestions.find? (fun s => s.id == suggestion_id) with
  | none => (db, Except.error ApiError.notFound)
  | some s =>
    if s.status != "pending" then (db, Except.error ApiError.conflict)
    else
      ({ db with suggestions :=
          updateFirst (fun x => x.id == suggestion_id) (fun x => { x with status := "dismissed" }) db.suggestions },
       Except.ok ())

-- ══════════ src/api.py : rebuild_vendor_rules ══════════

/-- Counter(...).most_common(1)[0][0]: the value with the highest count;
    most_common sorts by decreasing count with a stable sort over the dict's
    first-insertion order, so ties go to the first-encountered value. -/
def firstMostCommon (l : List String) : Option String :=
  let firstSeen := l.foldl (fun acc a => if acc.contains a then acc else acc ++ [a]) []
  firstSeen.foldl (fun best a =>
    match best with
    | none => some a
    | some b => if l.count b < l.count a then some a else best) none

/-- The truthy category values of a transaction list (Counter input
    `tx.category for tx in vtxs if tx.category`). -/
def truthyCategories (vtxs : List Transaction) : List String :=
  vtxs.filterMap (fun t => if strTruthy t.category then t.category else none)

/-- The truthy project values of a transaction list. -/
def truthyProjects (vtxs : List Transaction) : List String :=
  vtxs.filterMap (fun t => if strTruthy t.project then t.project else none)

/-- The per-vendor body of the rebuild loop, for a vendor with a nonempty
    transaction history `vtxs`. -/
def rebuildOne (vi : VendorInfo) (vtxs : List Transaction) : VendorInfo :=
  let pattern_set := (vtxs.foldl (fun acc t => acc ++ extract_description_patterns t.description) []).dedup
  let patterns := sortStrings pattern_set
  let default_category := firstMostCommon (truthyCategories vtxs)
  let default_project := firstMostCommon (truthyProjects vtxs)
  let pos_txs := vtxs.filter (fun t => decide (0 ≤ t.amount))
  let neg_txs := vtxs.filter (fun t => decide (t.amount < 0))
  let by_sign :=
    if !pos_txs.isEmpty && !neg_txs.isEmpty then
      let ic := (firstMostCommon (truthyCategories pos_txs)).orElse (fun _ => default_category)
      let ip := (firstMostCommon (truthyProjects pos_txs)).orElse (fun _ => default_project)
      let ec := (firstMostCommon (truthyCategories neg_txs)).orElse (fun _ => default_category)
      let ep := (firstMostCommon (truthyProjects neg_txs)).orElse (fun _ => default_project)
      if ic != ec || ip != ep then
        some { income := { category := ic, project := ip }, expense := { category := ec, project := ep } }
      else none
    else none
  let corrected := match vi.rules with | some r => r.corrected_count | none => 0
  let assigned := vtxs.length
  let confidence := computeConfidence corrected assigned
  let was_disabled := match vi.rules with | some r => r.enabled == false | none => false
  let enabled := !was_disabled && decide (7000 ≤ confidence)
  let newRules : VendorRules :=
    { patterns := patterns
      default_category := default_category
      default_project := default_project
      by_sign := by_sign
      enabled := enabled
      assigned_count := assigned
      corrected_count := corrected
      confidence := confidence }
  { vi with rules := some newRules }

/-- The history of one vendor: the account's vendor-labelled transactions
    grouped by vendor name (grouping preserves query order). -/
def vendorTxs (txs : List Transaction) (name : String) : List Transaction :=
  (txs.filter (fun t => t.vendor.isSome)).filter (fun t => t.vendor == some name)

/-- One step of the per-vendor rebuild loop. -/
def rebuildStep (txs : List Transaction) (acc : List VendorInfo × Nat) (vi : VendorInfo) :
    List VendorInfo × Nat :=
  let vtxs := vendorTxs txs vi.vendor_name
  if vtxs.isEmpty then (acc.1 ++ [vi], acc.2)
  else (acc.1 ++ [rebuildOne vi vtxs], acc.2 + 1)

/-- The per-vendor phase of rebuild_vendor_rules: vendors with no history keep
    their rules untouched, the rest are rebuilt; returns the updated count. -/
def rebuildPhase (vendors : List VendorInfo) (txs : List Transaction) : List VendorInfo × Nat :=
  vendors.foldl (rebuildStep txs) ([], 0)

/-- The pattern list of a vendor as the ambiguity pass reads it (a falsy
    rules payload contributes nothing). -/
def vendorPatterns (vi : VendorInfo) : List String :=
  match vi.rules with
  | some r => r.patterns
  | none => []

/-- The pattern_owners entries for one pattern: one (assigned_count, vendor
    index) pair per occurrence of the pattern in that vendor's list, in
    vendor order. -/
def ownerEntriesFrom (p : String) : Nat → List VendorInfo → List (Nat × Nat)
  | _, [] => []
  | i, vi :: rest =>
    (match vi.rules with
     | none => []
     | some r => (r.patterns.filter (fun q => q == p)).map (fun _ => (r.assigned_count, i)))
      ++ ownerEntriesFrom p (i + 1) rest

def ownerEntries (vs : List VendorInfo) (p : String) : List (Nat × Nat) :=
  ownerEntriesFrom p 0 vs

/-- All distinct pattern strings appearing in some vendor's rule payload
    (the key set of pattern_owners; key order is immaterial because the
    per-pattern strips are independent). -/
def allPatternList (vs : List VendorInfo) : List String :=
  (vs.foldl (fun acc vi => acc ++ vendorPatterns vi) []).dedup

/-- Maximal assigned_count among a pattern's owner entries. -/
def maxFst : List (Nat × Nat) → Nat
  | [] => 0
  | e :: l => max e.1 (maxFst l)

/-- owner_list after the stable sort by decreasing count and dropping the
    head: everything except the first entry attaining the maximal count. -/
def dropWinner (l : List (Nat × Nat)) : List (Nat × Nat) :=
  l.eraseP (fun e => e.1 == maxFst l)

/-- Drop every copy of pattern p from a vendor's payload (the dict-copy /
    filter / write-back step of the ambiguity loop). -/
def stripVendor (p : String) (vi : VendorInfo) : VendorInfo :=
  match vi.rules with
  | none => vi
  | some r => { vi with rules := some { r with patterns := r.patterns.filter (fun x => x != p) } }

/-- Strip pattern p from the vendor object at index i. -/
def stripPatternAt (vs : List VendorInfo) (i : Nat) (p : String) : List VendorInfo :=
  modifyIdx (stripVendor p) i vs

/-- Processing of one contested-or-not pattern key of pattern_owners: nothing
    happens for a pattern with at most one owner entry, otherwise every owner
    left after dropping the winner has the pattern stripped. -/
def ambStep (vs cur : List VendorInfo) (p : String) : List VendorInfo :=
  let owners := ownerEntries vs p
  if owners.length ≤ 1 then cur
  else (dropWinner owners).foldl (fun c e => stripPatternAt c e.2 p) cur

/-- The ambiguity-cleanup pass at the end of rebuild_vendor_rules, and the
    ambiguous_patterns_resolved count (both computed from the snapshot taken
    before any stripping, as the Python code builds pattern_owners once). -/
def resolveAmbiguity (vs : List VendorInfo) : List VendorInfo × Nat :=
  let pats := allPatternList vs
  (pats.foldl (ambStep vs) vs, pats.countP (fun p => decide (1 < (ownerEntries vs p).length)))

/-- api.rebuild_vendor_rules on the account's vendor rows and transactions:
    the per-vendor rebuild phase followed by the ambiguity cleanup; returns
    (vendors, updated, ambiguous_patterns_resolved). -/
def rebuild_vendor_rules (vendors : List VendorInfo) (txs : List Transaction) :
    List VendorInfo × Nat × Nat :=
  let phase := rebuildPhase vendors txs
  let amb := resolveAmbiguity phase.1
  (amb.1, phase.2, amb.2)

-- ══════════ specification-side definitions (for refinement statements) ══════════

/-- Modelled from the spec (section 4.4 Matcher): a candidate vendor matches a
    description when any one of its patterns occurs in it under
    case-insensitive substring containment.  This is the spec's wording; it
    places no non-emptiness condition on the pattern. -/
def specVendorMatches (description : String) (vi : VendorInfo) : Bool :=
  match vi.rules with
  | some r => r.patterns.any (fun p => strIn (upperStr p) (upperStr description))
  | none => false

/-- The assigned_count the matcher reads for a vendor. -/
def assignedCountOf (vi : VendorInfo) : Nat :=
  match vi.rules with
  | some r => r.assigned_count
  | none => 0

/-- Spec-side: the indices of the vendors holding pattern p (each vendor
    counted once, regardless of duplicate entries in its pattern list). -/
def holdersFrom (p : String) : Nat → List VendorInfo → List Nat
  | _, [] => []
  | i, vi :: rest =>
    (if (vendorPatterns vi).contains p then [i] else []) ++ holdersFrom p (i + 1) rest

def holders (vs : List VendorInfo) (p : String) : List Nat := holdersFrom p 0 vs

/-- Spec-side: the number of pattern strings held by more than one vendor. -/
def multiHolderCount (vs : List VendorInfo) : Nat :=
  (allPatternList vs).countP (fun p => decide (1 < (holders vs p).length))

/-- The assigned_count of the vendor at index i (0 when out of range or
    without a payload), for stating the ambiguity-resolution claims. -/
def assignedAt (vs : List VendorInfo) (i : Nat) : Nat :=
  match vs.get? i with
  | some vi => assignedCountOf vi
  | none => 0

/-- The vendor at index i holds pattern p. -/
def holdsAt (vs : List VendorInfo) (i : Nat) (p : String) : Prop :=
  ∃ vi, vs.get? i = some vi ∧ p ∈ vendorPatterns vi

/-- The confidence invariant of spec section 3, as a predicate on a rule
    payload: confidence equals round(1 - corrected/max(assigned,1), 4). -/
def confidenceInvariant (r : VendorRules) : Prop :=
  r.confidence = computeConfidence r.corrected_count r.assigned_count

/-- Pure replay of the identities a batch of rows is assigned, carrying the
    per-file base-hash occurrence counter (independent of the store). -/
def batchIdsAux (sha : String → List Nat) (pd : String → Option String) (pf : String → Option Int) :
    List CsvRow → (String → Nat) → List String
  | [], _ => []
  | row :: rest, counts =>
    match pd row.date, pf row.amount with
    | some t_date, some amount =>
      let base := generate_base_hash sha t_date (trimStr row.description) amount
      (base ++ "-" ++ natRepr (counts base)) ::
        batchIdsAux sha pd pf rest (fun h => if h = base then counts h + 1 else counts h)
    | _, _ => batchIdsAux sha pd pf rest counts

/-- The identities assigned to a batch, in row order. -/
def batchIds (sha : String → List Nat) (pd : String → Option String) (pf : String → Option Int)
    (rows : List CsvRow) : List String :=
  batchIdsAux sha pd pf rows (fun _ => 0)

/-- The base hash of a row, when the row parses. -/
def rowBase (sha : String → List Nat) (pd : String → Option String) (pf : String → Option Int)
    (row : CsvRow) : Option String :=
  match pd row.date, pf row.amount with
  | some t_date, some amount => some (generate_base_hash sha t_date (trimStr row.description) amount)
  | _, _ => none

/-- A row parses: both its date and its amount are accepted. -/
def rowParses (pd : String → Option String) (pf : String → Option Int) (row : CsvRow) : Prop :=
  (pd row.date).isSome ∧ (pf row.amount).isSome

-- ══════════ proof-support definitions ══════════

/-- Decimal value of a digit string (left inverse of natRepr). -/
def listVal (l : List Char) : Nat := l.foldl (fun a c => 10 * a + (c.toNat - 48)) 0

/-- Pattern p is contested in the snapshot vs: more than one owner entry. -/
def contestedB (vs : List VendorInfo) (p : String) : Bool :=
  decide (1 < (ownerEntries vs p).length)

/-- The vendor at index j loses pattern p: it appears among the owner entries
    left after the winner is dropped. -/
def loserB (vs : List VendorInfo) (p : String) (j : Nat) : Bool :=
  (dropWinner (ownerEntries vs p)).any (fun e => e.2 == j)

/-- A pattern q of the vendor at index j survives the strips done for the
    processed pattern keys ps. -/
def keepPat (vs : List VendorInfo) (ps : List String) (j : Nat) (q : String) : Bool :=
  !(ps.contains q && contestedB vs q && loserB vs q j)

/-- Cumulative effect on the vendor at index j of the strips for keys ps. -/
def stripSet (vs : List VendorInfo) (ps : List String) (j : Nat) (vi : VendorInfo) : VendorInfo :=
  { vi with rules := vi.rules.map (fun r => { r with patterns := r.patterns.filter (keepPat vs ps j) }) }

/-- Amended matcher predicate: the vendor has a non-empty pattern occurring in
    the uppercased description. -/
def vendorMatchesNonempty (description : String) (vi : VendorInfo) : Bool :=
  match vi.rules with
  | some r => rulesHit (upperStr description) r
  | none => false

-- ══════════ lemmas: decimal and hex renderings, identity injectivity ══════════

theorem digitChar_toNat {d : Nat} (h : d < 10) : (digitChar d).toNat = 48 + d := by
  interval_cases d <;> decide

theorem natReprAux_digits {fuel n : Nat} {c : Char} (hc : c ∈ natReprAux fuel n) :
    48 ≤ c.toNat ∧ c.toNat ≤ 57 := by
  induction fuel generalizing n with
  | zero => simp [natReprAux] at hc
  | succ fuel ih =>
    rw [natReprAux] at hc
    by_cases h : n < 10
    · simp [h] at hc
      subst hc
      rw [digitChar_toNat h]
      omega
    · simp [h] at hc
      rcases hc with hc | hc
      · exact ih hc
      · subst hc
        rw [digitChar_toNat (Nat.mod_lt _ (by norm_num))]
        have := Nat.mod_lt n (show 0 < 10 by norm_num)
        omega

theorem natRepr_no_dash {n : Nat} : '-' ∉ (natRepr n).data := by
  intro hmem
  have h := @natReprAux_digits (n + 1) n '-' hmem
  have : ('-').toNat = 45 := by decide
  omega

theorem natReprAux_ne_nil {fuel n : Nat} (h : n < fuel) : natReprAux fuel n ≠ [] := by
  cases fuel with
  | zero => omega
  | succ fuel =>
    rw [natReprAux]
    by_cases h10 : n < 10
    · simp [h10]
    · simp [h10]

theorem listVal_append_last (l : List Char) (c : Char) :
    listVal (l ++ [c]) = 10 * listVal l + (c.toNat - 48) := by
  simp [listVal, List.foldl_append]

theorem listVal_natReprAux {fuel n : Nat} (h : n < fuel) :
    listVal (natReprAux fuel n) = n := by
  induction fuel generalizing n with
  | zero => omega
  | succ fuel ih =>
    rw [natReprAux]
    by_cases h10 : n < 10
    · simp [h10, listVal, List.foldl, digitChar_toNat h10]
    · have hn0 : 0 < n := by omega
      have hdiv : n / 10 < n := Nat.div_lt_self hn0 (by norm_num)
      have hfuel : n / 10 < fuel := by omega
      simp only [h10, if_false]
      rw [listVal_append_last, ih hfuel, digitChar_toNat (Nat.mod_lt _ (by norm_num))]
      omega

theorem natRepr_inj {m n : Nat} (h : natRepr m = natRepr n) : m = n := by
  have hd : (natRepr m).data = (natRepr n).data := by rw [h]
  have hm := @listVal_natReprAux (m + 1) m (by omega)
  have hn := @listVal_natReprAux (n + 1) n (by omega)
  calc m = listVal (natRepr m).data := hm.symm
    _ = listVal (natRepr n).data := by rw [hd]
    _ = n := hn

theorem hexChar_toNat_range (d : Nat) (h : d < 16) :
    48 ≤ (hexChar d).toNat ∧ (hexChar d).toNat ≤ 102 := by
  interval_cases d <;> decide

theorem hexEncode_no_dash (bytes : List Nat) : '-' ∉ (hexEncode bytes).data := by
  show '-' ∉ bytes.foldr (fun b acc => hexChar (b / 16 % 16) :: hexChar (b % 16) :: acc) []
  induction bytes with
  | nil => simp
  | cons b rest ih =>
    simp only [List.foldr_cons, List.mem_cons]
    rintro (h | h | h)
    · have h1 := hexChar_toNat_range (b / 16 % 16) (Nat.mod_lt _ (by norm_num))
      have h2 : ('-').toNat = (hexChar (b / 16 % 16)).toNat := by rw [h]
      have h3 : ('-').toNat = 45 := by decide
      omega
    · have h1 := hexChar_toNat_range (b % 16) (Nat.mod_lt _ (by norm_num))
      have h2 : ('-').toNat = (hexChar (b % 16)).toNat := by rw [h]
      have h3 : ('-').toNat = 45 := by decide
      omega
    · exact ih h

theorem append_dash_inj : ∀ (A B D₁ D₂ : List Char), '-' ∉ A → '-' ∉ B →
    A ++ '-' :: D₁ = B ++ '-' :: D₂ → A = B ∧ D₁ = D₂ := by
  intro A
  induction A with
  | nil =>
    intro B D₁ D₂ _ hB h
    cases B with
    | nil => simpa using h
    | cons b bs =>
      simp only [List.nil_append, List.cons_append, List.cons.injEq] at h
      exact absurd (h.1 ▸ List.mem_cons_self b bs) hB
  | cons a as ih =>
    intro B D₁ D₂ hA hB h
    cases B with
    | nil =>
      simp only [List.cons_append, List.nil_append, List.cons.injEq] at h
      exact absurd (h.1.symm ▸ List.mem_cons_self a as) hA
    | cons b bs =>
      simp only [List.cons_append, List.cons.injEq] at h
      have hA' : '-' ∉ as := fun hm => hA (List.mem_cons_of_mem a hm)
      have hB' : '-' ∉ bs := fun hm => hB (List.mem_cons_of_mem b hm)
      obtain ⟨h1, h2⟩ := ih bs D₁ D₂ hA' hB' h.2
      exact ⟨by rw [h.1, h1], h2⟩

/-- Distinct (base, occurrence) pairs give distinct composite identities, as
    long as the bases are dash-free (hex digests are). -/
theorem txId_inj {b₁ b₂ : String} {n₁ n₂ : Nat}
    (h₁ : '-' ∉ b₁.data) (h₂ : '-' ∉ b₂.data)
    (h : b₁ ++ "-" ++ natRepr n₁ = b₂ ++ "-" ++ natRepr n₂) : b₁ = b₂ ∧ n₁ = n₂ := by
  have hd : b₁.data ++ '-' :: (natRepr n₁).data = b₂.data ++ '-' :: (natRepr n₂).data := by
    have := congrArg String.data h
    simpa [String.data_append] using this
  obtain ⟨hb, hn⟩ := append_dash_inj _ _ _ _ h₁ h₂ hd
  exact ⟨String.ext hb, natRepr_inj (String.ext hn)⟩

-- ══════════ lemmas: the import row loop ══════════

theorem rowParses_elim {pd : String → Option String} {pf : String → Option Int} {row : CsvRow}
    (h : rowParses pd pf row) : ∃ d a, pd row.date = some d ∧ pf row.amount = some a := by
  obtain ⟨h1, h2⟩ := h
  obtain ⟨d, hd⟩ := Option.isSome_iff_exists.mp h1
  obtain ⟨a, ha⟩ := Option.isSome_iff_exists.mp h2
  exact ⟨d, a, hd, ha⟩

theorem batchIdsAux_cons_parsed (sha : String → List Nat) {pd : String → Option String}
    {pf : String → Option Int} {row : CsvRow} {d : String} {a : Int}
    (rest : List CsvRow) (counts : String → Nat)
    (hd : pd row.date = some d) (ha : pf row.amount = some a) :
    batchIdsAux sha pd pf (row :: rest) counts =
      (generate_base_hash sha d (trimStr row.description) a ++ "-" ++
        natRepr (counts (generate_base_hash sha d (trimStr row.description) a))) ::
      batchIdsAux sha pd pf rest
        (fun h => if h = generate_base_hash sha d (trimStr row.description) a then counts h + 1 else counts h) := by
  simp [batchIdsAux, hd, ha]

theorem batchIdsAux_length {sha : String → List Nat} {pd : String → Option String}
    {pf : String → Option Int} :
    ∀ (rows : List CsvRow) (counts : String → Nat), (∀ r ∈ rows, rowParses pd pf r) →
      (batchIdsAux sha pd pf rows counts).length = rows.length := by
  intro rows
  induction rows with
  | nil => intro counts _; rfl
  | cons row rest ih =>
    intro counts hparse
    obtain ⟨d, a, hd, ha⟩ := rowParses_elim (hparse row (List.mem_cons_self _ _))
    rw [batchIdsAux_cons_parsed sha rest counts hd ha]
    simp only [List.length_cons]
    rw [ih _ (fun r hr => hparse r (List.mem_cons_of_mem _ hr))]

theorem generate_base_hash_no_dash (sha : String → List Nat) (d desc : String) (a : Int) :
    '-' ∉ (generate_base_hash sha d desc a).data := hexEncode_no_dash _

theorem batchIdsAux_shape {sha : String → List Nat} {pd : String → Option String}
    {pf : String → Option Int} :
    ∀ (rows : List CsvRow) (counts : String → Nat) (tid : String),
      tid ∈ batchIdsAux sha pd pf rows counts →
      ∃ b n, tid = b ++ "-" ++ natRepr n ∧ '-' ∉ b.data ∧ counts b ≤ n := by
  intro rows
  induction rows with
  | nil => intro counts tid h; simp [batchIdsAux] at h
  | cons row rest ih =>
    intro counts tid h
    cases hd : pd row.date with
    | none =>
      rw [batchIdsAux] at h
      simp only [hd] at h
      exact ih _ _ h
    | some d =>
      cases ha : pf row.amount with
      | none =>
        rw [batchIdsAux] at h
        simp only [hd, ha] at h
        exact ih _ _ h
      | some a =>
        rw [batchIdsAux_cons_parsed sha rest counts hd ha] at h
        rcases List.mem_cons.mp h with h | h
        · exact ⟨generate_base_hash sha d (trimStr row.description) a,
            counts (generate_base_hash sha d (trimStr row.description) a), h,
            generate_base_hash_no_dash sha _ _ _, Nat.le_refl _⟩
        · obtain ⟨b, n, htid, hb, hle⟩ := ih _ _ h
          refine ⟨b, n, htid, hb, ?_⟩
          have hle' : (if b = generate_base_hash sha d (trimStr row.description) a
              then counts b + 1 else counts b) ≤ n := hle
          by_cases hbb : b = generate_base_hash sha d (trimStr row.description) a
          · rw [if_pos hbb] at hle'
            omega
          · rw [if_neg hbb] at hle'
            exact hle'

theorem importRow_fields_fresh {sha : String → List Nat} {pd : String → Option String}
    {pf : String → Option Int} {cands : List VendorInfo} {acct : Nat} {src : String}
    {st : ImpState} {row : CsvRow} {d base : String} {a : Int}
    (hd : pd row.date = some d) (ha : pf row.amount = some a)
    (hbase : base = generate_base_hash sha d (trimStr row.description) a)
    (hany : st.txs.any (fun t => t.id == base ++ "-" ++ natRepr (st.counts base)) = false) :
    (importRow sha pd pf cands acct src st row).txs.map (fun t => t.id)
      = st.txs.map (fun t => t.id) ++ [base ++ "-" ++ natRepr (st.counts base)] ∧
    (importRow sha pd pf cands acct src st row).imported = st.imported + 1 ∧
    (importRow sha pd pf cands acct src st row).skipped = st.skipped ∧
    (importRow sha pd pf cands acct src st row).counts
      = fun h => if h = base then st.counts h + 1 else st.counts h := by
  subst hbase
  simp only [importRow, hd, ha, hany, Bool.false_eq_true, if_false]
  cases hfm : find_matching_vendor (trimStr row.description) cands <;>
    simp [hfm]

theorem importRow_fields_dup {sha : String → List Nat} {pd : String → Option String}
    {pf : String → Option Int} {cands : List VendorInfo} {acct : Nat} {src : String}
    {st : ImpState} {row : CsvRow} {d base : String} {a : Int}
    (hd : pd row.date = some d) (ha : pf row.amount = some a)
    (hbase : base = generate_base_hash sha d (trimStr row.description) a)
    (hany : st.txs.any (fun t => t.id == base ++ "-" ++ natRepr (st.counts base)) = true) :
    importRow sha pd pf cands acct src st row
      = { st with skipped := st.skipped + 1,
                  counts := fun h => if h = base then st.counts h + 1 else st.counts h } := by
  subst hbase
  simp only [importRow, hd, ha, hany, if_true]

theorem importFold_fresh {sha : String → List Nat} {pd : String → Option String}
    {pf : String → Option Int} (cands : List VendorInfo) (acct : Nat) (src : String) :
    ∀ (rows : List CsvRow) (st : ImpState),
      (∀ r ∈ rows, rowParses pd pf r) →
      (∀ tid ∈ batchIdsAux sha pd pf rows st.counts, ∀ t ∈ st.txs, t.id ≠ tid) →
      (rows.foldl (importRow sha pd pf cands acct src) st).imported = st.imported + rows.length ∧
      (rows.foldl (importRow sha pd pf cands acct src) st).skipped = st.skipped ∧
      (rows.foldl (importRow sha pd pf cands acct src) st).txs.map (fun t => t.id)
        = st.txs.map (fun t => t.id) ++ batchIdsAux sha pd pf rows st.counts := by
  intro rows
  induction rows with
  | nil => intro st _ _; simp [batchIdsAux]
  | cons row rest ih =>
    intro st hparse hfresh
    obtain ⟨d, a, hd, ha⟩ := rowParses_elim (hparse row (List.mem_cons_self _ _))
    have hids := batchIdsAux_cons_parsed sha rest st.counts hd ha
    have hfresh0 : ∀ t ∈ st.txs,
        t.id ≠ generate_base_hash sha d (trimStr row.description) a ++ "-" ++
          natRepr (st.counts (generate_base_hash sha d (trimStr row.description) a)) := by
      intro t ht
      exact hfresh _ (by rw [hids]; exact List.mem_cons_self _ _) t ht
    have hany : st.txs.any (fun t =>
        t.id == generate_base_hash sha d (trimStr row.description) a ++ "-" ++
          natRepr (st.counts (generate_base_hash sha d (trimStr row.description) a))) = false := by
      rw [List.any_eq_false]
      intro t ht
      simp only [beq_iff_eq]
      exact hfresh0 t ht
    obtain ⟨htxs, himp, hskip, hcounts⟩ := importRow_fields_fresh hd ha rfl hany
    rw [List.foldl_cons]
    have hparse' : ∀ r ∈ rest, rowParses pd pf r :=
      fun r hr => hparse r (List.mem_cons_of_mem _ hr)
    have hfresh' : ∀ tid ∈ batchIdsAux sha pd pf rest
        (importRow sha pd pf cands acct src st row).counts,
        ∀ t ∈ (importRow sha pd pf cands acct src st row).txs, t.id ≠ tid := by
      rw [hcounts]
      intro tid htid t ht
      have hmap : t.id ∈ (importRow sha pd pf cands acct src st row).txs.map (fun t => t.id) :=
        List.mem_map_of_mem _ ht
      rw [htxs, List.mem_append] at hmap
      rcases hmap with hmap | hmap
      · obtain ⟨t₀, ht₀, hid₀⟩ := List.mem_map.mp hmap
        rw [← hid₀]
        exact hfresh _ (by rw [hids]; exact List.mem_cons_of_mem _ htid) t₀ ht₀
      · have hid : t.id = generate_base_hash sha d (trimStr row.description) a ++ "-" ++
            natRepr (st.counts (generate_base_hash sha d (trimStr row.description) a)) := by
          simpa using hmap
        obtain ⟨b, n, htb, hbd, hble⟩ := batchIdsAux_shape rest _ tid htid
        intro heq
        rw [hid, htb] at heq
        obtain ⟨hb1, hb2⟩ := txId_inj (generate_base_hash_no_dash sha _ _ _) hbd heq
        have hble' : (if b = generate_base_hash sha d (trimStr row.description) a
            then st.counts b + 1 else st.counts b) ≤ n := hble
        rw [if_pos hb1.symm] at hble'
        rw [hb1] at hb2
        omega
    obtain ⟨ih1, ih2, ih3⟩ := ih (importRow sha pd pf cands acct src st row) hparse' hfresh'
    refine ⟨?_, ?_, ?_⟩
    · rw [ih1, himp]
      simp only [List.length_cons]
      omega
    · rw [ih2, hskip]
    · rw [ih3, htxs, hcounts, hids, List.append_assoc]
      rfl

theorem importFold_present {sha : String → List Nat} {pd : String → Option String}
    {pf : String → Option Int} (cands : List VendorInfo) (acct : Nat) (src : String) :
    ∀ (rows : List CsvRow) (st : ImpState),
      (∀ r ∈ rows, rowParses pd pf r) →
      (∀ tid ∈ batchIdsAux sha pd pf rows st.counts, ∃ t ∈ st.txs, t.id = tid) →
      (rows.foldl (importRow sha pd pf cands acct src) st).imported = st.imported ∧
      (rows.foldl (importRow sha pd pf cands acct src) st).skipped = st.skipped + rows.length ∧
      (rows.foldl (importRow sha pd pf cands acct src) st).txs = st.txs := by
  intro rows
  induction rows with
  | nil => intro st _ _; simp
  | cons row rest ih =>
    intro st hparse hpresent
    obtain ⟨d, a, hd, ha⟩ := rowParses_elim (hparse row (List.mem_cons_self _ _))
    have hids := batchIdsAux_cons_parsed sha rest st.counts hd ha
    have hany : st.txs.any (fun t =>
        t.id == generate_base_hash sha d (trimStr row.description) a ++ "-" ++
          natRepr (st.counts (generate_base_hash sha d (trimStr row.description) a))) = true := by
      rw [List.any_eq_true]
      obtain ⟨t, ht, hid⟩ := hpresent _ (by rw [hids]; exact List.mem_cons_self _ _)
      exact ⟨t, ht, by simp [hid]⟩
    have hrow := @importRow_fields_dup sha pd pf cands acct src st row d
      (generate_base_hash sha d (trimStr row.description) a) a hd ha rfl hany
    have hparse' : ∀ r ∈ rest, rowParses pd pf r :=
      fun r hr => hparse r (List.mem_cons_of_mem _ hr)
    have hpresent2 : ∀ tid ∈ batchIdsAux sha pd pf rest
        (importRow sha pd pf cands acct src st row).counts,
        ∃ t ∈ (importRow sha pd pf cands acct src st row).txs, t.id = tid := by
      intro tid htid
      rw [hrow] at htid
      obtain ⟨t, ht, hid⟩ := hpresent tid (by rw [hids]; exact List.mem_cons_of_mem _ htid)
      refine ⟨t, ?_, hid⟩
      rw [hrow]
      exact ht
    obtain ⟨ih1, ih2, ih3⟩ := ih (importRow sha pd pf cands acct src st row) hparse' hpresent2
    rw [List.foldl_cons]
    refine ⟨?_, ?_, ?_⟩
    · rw [ih1, hrow]
    · rw [ih2, hrow]
      simp only [List.length_cons]
      omega
    · rw [ih3, hrow]

theorem batchIdsAux_get {sha : String → List Nat} {pd : String → Option String}
    {pf : String → Option Int} :
    ∀ (rows : List CsvRow) (counts : String → Nat) (j : Nat) (hj : j < rows.length),
      (∀ r ∈ rows, rowParses pd pf r) →
      ∃ b, rowBase sha pd pf (rows.get ⟨j, hj⟩) = some b ∧
        (batchIdsAux sha pd pf rows counts).get? j = some (b ++ "-" ++
          natRepr (counts b + (rows.take j).countP (fun r => rowBase sha pd pf r == some b))) := by
  intro rows
  induction rows with
  | nil => intro counts j hj; exact absurd hj (by simp)
  | cons row rest ih =>
    intro counts j hj hparse
    obtain ⟨d, a, hd, ha⟩ := rowParses_elim (hparse row (List.mem_cons_self _ _))
    have hbase : rowBase sha pd pf row = some (generate_base_hash sha d (trimStr row.description) a) := by
      simp [rowBase, hd, ha]
    have hids := batchIdsAux_cons_parsed sha rest counts hd ha
    cases j with
    | zero =>
      refine ⟨generate_base_hash sha d (trimStr row.description) a, ?_, ?_⟩
      · simpa using hbase
      · rw [hids]
        simp
    | succ j =>
      have hj' : j < rest.length := by simpa using hj
      obtain ⟨b, hb, hget⟩ := ih (fun h => if h = generate_base_hash sha d (trimStr row.description) a
          then counts h + 1 else counts h) j hj'
        (fun r hr => hparse r (List.mem_cons_of_mem _ hr))
      refine ⟨b, ?_, ?_⟩
      · simpa using hb
      · rw [hids]
        simp only [List.get?_cons_succ]
        rw [hget]
        have harg : (if b = generate_base_hash sha d (trimStr row.description) a
              then counts b + 1 else counts b) +
            List.countP (fun r => rowBase sha pd pf r == some b) (List.take j rest)
            = counts b + List.countP (fun r => rowBase sha pd pf r == some b)
                (List.take (j + 1) (row :: rest)) := by
          have htake : (row :: rest).take (j + 1) = row :: rest.take j := rfl
          rw [htake, List.countP_cons]
          by_cases hbb : b = generate_base_hash sha d (trimStr row.description) a
          · simp only [if_pos hbb, hbase, hbb, beq_self_eq_true, if_pos rfl]
            simp
            omega
          · have hgb : generate_base_hash sha d (trimStr row.description) a ≠ b :=
              fun h => hbb h.symm
            simp only [if_neg hbb, hbase]
            simp [hgb]
        exact congrArg (fun n => some (b ++ "-" ++ natRepr n)) harg

-- ══════════ claims C2 and C3 ══════════

/-- C2: for CSV content whose rows all parse and whose computed identities are
    not yet present in storage, importing it twice in sequence returns
    imported=N, skipped=0 the first time and imported=0, skipped=N the second
    time (N the number of rows), and the second import inserts no new
    transaction records. -/
theorem claim_C2 (sha : String → List Nat) (pd : String → Option String) (pf : String → Option Int)
    (rows : List CsvRow) (db : Db) (account_id n₁ n₂ : Nat) (src₁ src₂ : String)
    (hparse : ∀ r ∈ rows, rowParses pd pf r)
    (hfresh : ∀ tid ∈ batchIds sha pd pf rows, ∀ t ∈ db.transactions, t.id ≠ tid) :
    (import_csv_content sha pd pf rows src₁ db account_id n₁).1.imported = rows.length ∧
    (import_csv_content sha pd pf rows src₁ db account_id n₁).1.skipped = 0 ∧
    (import_csv_content sha pd pf rows src₂
        (import_csv_content sha pd pf rows src₁ db account_id n₁).2 account_id n₂).1.imported = 0 ∧
    (import_csv_content sha pd pf rows src₂
        (import_csv_content sha pd pf rows src₁ db account_id n₁).2 account_id n₂).1.skipped = rows.length ∧
    (import_csv_content sha pd pf rows src₂
        (import_csv_content sha pd pf rows src₁ db account_id n₁).2 account_id n₂).2.transactions =
      (import_csv_content sha pd pf rows src₁ db account_id n₁).2.transactions := by
  obtain ⟨h1i, h1s, h1t⟩ := @importFold_fresh sha pd pf
    (autoCandidates db.vendors account_id) account_id src₁ rows
    { txs := db.transactions, imported := 0, skipped := 0, counts := fun _ => 0, groups := [] }
    hparse hfresh
  have hpresent : ∀ tid ∈ batchIds sha pd pf rows,
      ∃ t ∈ (rows.foldl (importRow sha pd pf (autoCandidates db.vendors account_id) account_id src₁)
        { txs := db.transactions, imported := 0, skipped := 0, counts := fun _ => 0, groups := [] }).txs,
      t.id = tid := by
    intro tid htid
    have hmem : tid ∈ (rows.foldl (importRow sha pd pf (autoCandidates db.vendors account_id) account_id src₁)
        { txs := db.transactions, imported := 0, skipped := 0, counts := fun _ => 0, groups := [] }).txs.map
          (fun t => t.id) := by
      rw [h1t]
      exact List.mem_append_right _ htid
    obtain ⟨t, ht, hid⟩ := List.mem_map.mp hmem
    exact ⟨t, ht, hid⟩
  obtain ⟨h2i, h2s, h2t⟩ := @importFold_present sha pd pf
    (autoCandidates db.vendors account_id) account_id src₂ rows
    { txs := (rows.foldl (importRow sha pd pf (autoCandidates db.vendors account_id) account_id src₁)
        { txs := db.transactions, imported := 0, skipped := 0, counts := fun _ => 0, groups := [] }).txs,
      imported := 0, skipped := 0, counts := fun _ => 0, groups := [] }
    hparse hpresent
  refine ⟨?_, ?_, ?_, ?_, ?_⟩
  · simpa [import_csv_content] using h1i
  · simpa [import_csv_content] using h1s
  · simpa [import_csv_content] using h2i
  · simpa [import_csv_content] using h2s
  · simpa [import_csv_content] using h2t

theorem claim_C2_witness :
    (∀ r ∈ [CsvRow.mk "2024-01-05" "-400" "*" "" "COFFEE"],
      rowParses (fun s => some s) (fun _ => some (-400)) r) ∧
    (∀ tid ∈ batchIds (fun _ => [0, 255]) (fun s => some s) (fun _ => some (-400))
        [CsvRow.mk "2024-01-05" "-400" "*" "" "COFFEE"],
      ∀ t ∈ (Db.mk [] [] []).transactions, t.id ≠ tid) ∧
    (import_csv_content (fun _ => [0, 255]) (fun s => some s) (fun _ => some (-400))
      [CsvRow.mk "2024-01-05" "-400" "*" "" "COFFEE"] "a.csv" (Db.mk [] [] []) 1 1).1.imported =
      [CsvRow.mk "2024-01-05" "-400" "*" "" "COFFEE"].length :=
  ⟨fun r _ => ⟨rfl, rfl⟩, by decide,
    (claim_C2 (fun _ => [0, 255]) (fun s => some s) (fun _ => some (-400))
      [CsvRow.mk "2024-01-05" "-400" "*" "" "COFFEE"] (Db.mk [] [] []) 1 1 1 "a.csv" "a.csv"
      (fun r _ => ⟨rfl, rfl⟩) (by decide)).1⟩

/-- C3: a parsed row's identity is the hex SHA-256 digest of the date string,
    the description and the amount formatted to two decimals, followed by "-"
    and an occurrence index counting the earlier rows of the batch with the
    same base hash; hence two identical rows in one file get the distinct
    identities base-0 and base-1 and are both inserted in one pass. -/
theorem claim_C3 (sha : String → List Nat) (pd : String → Option String) (pf : String → Option Int) :
    (∀ (rows : List CsvRow), (∀ r ∈ rows, rowParses pd pf r) →
      ∀ (j : Nat) (hj : j < rows.length) (d : String) (a : Int),
        pd (rows.get ⟨j, hj⟩).date = some d → pf (rows.get ⟨j, hj⟩).amount = some a →
        (batchIds sha pd pf rows).get? j = some
          (generate_base_hash sha d (trimStr (rows.get ⟨j, hj⟩).description) a ++ "-" ++
            natRepr ((rows.take j).countP (fun r => rowBase sha pd pf r ==
              some (generate_base_hash sha d (trimStr (rows.get ⟨j, hj⟩).description) a))))) ∧
    (∀ (row : CsvRow) (db : Db) (account_id nid : Nat) (src d : String) (a : Int),
      pd row.date = some d → pf row.amount = some a →
      (∀ t ∈ db.transactions,
        t.id ≠ generate_base_hash sha d (trimStr row.description) a ++ "-" ++ natRepr 0 ∧
        t.id ≠ generate_base_hash sha d (trimStr row.description) a ++ "-" ++ natRepr 1) →
      natRepr 0 = "0" ∧ natRepr 1 = "1" ∧
      generate_base_hash sha d (trimStr row.description) a ++ "-" ++ natRepr 0 ≠
        generate_base_hash sha d (trimStr row.description) a ++ "-" ++ natRepr 1 ∧
      (import_csv_content sha pd pf [row, row] src db account_id nid).1.imported = 2 ∧
      (import_csv_content sha pd pf [row, row] src db account_id nid).2.transactions.map (fun t => t.id)
        = db.transactions.map (fun t => t.id) ++
          [generate_base_hash sha d (trimStr row.description) a ++ "-" ++ natRepr 0,
           generate_base_hash sha d (trimStr row.description) a ++ "-" ++ natRepr 1]) := by
  constructor
  · intro rows hparse j hj d a hd ha
    obtain ⟨b, hb, hget⟩ := @batchIdsAux_get sha pd pf rows (fun _ => 0) j hj hparse
    have hbd : rowBase sha pd pf (rows.get ⟨j, hj⟩)
        = some (generate_base_hash sha d (trimStr (rows.get ⟨j, hj⟩).description) a) := by
      unfold rowBase
      rw [hd, ha]
    rw [hbd] at hb
    have hbb := (Option.some.injEq _ _).mp hb.symm
    rw [batchIds]
    rw [hget, hbb]
    simp
  · intro row db account_id nid src d a hd ha hfresh2
    have hlist : batchIds sha pd pf [row, row]
        = [generate_base_hash sha d (trimStr row.description) a ++ "-" ++ natRepr 0,
           generate_base_hash sha d (trimStr row.description) a ++ "-" ++ natRepr 1] := by
      rw [batchIds, batchIdsAux_cons_parsed sha [row] _ hd ha,
        batchIdsAux_cons_parsed sha [] _ hd ha]
      simp [batchIdsAux]
    have hparse2 : ∀ r ∈ [row, row], rowParses pd pf r := by
      intro r hr
      rcases List.mem_cons.mp hr with h | h
      · subst h; exact ⟨by simp [hd], by simp [ha]⟩
      · simp at h; subst h; exact ⟨by simp [hd], by simp [ha]⟩
    have hfresh : ∀ tid ∈ batchIds sha pd pf [row, row], ∀ t ∈ db.transactions, t.id ≠ tid := by
      intro tid htid t ht
      rw [hlist] at htid
      rcases List.mem_cons.mp htid with h | h
      · subst h; exact (hfresh2 t ht).1
      · simp at h; subst h; exact (hfresh2 t ht).2
    obtain ⟨h1i, h1s, h1t⟩ := @importFold_fresh sha pd pf
      (autoCandidates db.vendors account_id) account_id src [row, row]
      { txs := db.transactions, imported := 0, skipped := 0, counts := fun _ => 0, groups := [] }
      hparse2 hfresh
    refine ⟨by decide, by decide, ?_, ?_, ?_⟩
    · intro heq
      have := (txId_inj (generate_base_hash_no_dash sha _ _ _)
        (generate_base_hash_no_dash sha _ _ _) heq).2
      omega
    · simpa [import_csv_content] using h1i
    · have := h1t
      rw [show batchIdsAux sha pd pf [row, row] (fun _ => 0) = batchIds sha pd pf [row, row] from rfl,
        hlist] at this
      simpa [import_csv_content] using this

theorem claim_C3_witness :
    ((∀ r ∈ [CsvRow.mk "2024-01-05" "-400" "*" "" "COFFEE"],
        rowParses (fun s => some s) (fun _ => some (-400)) r) →
      True) ∧
    (batchIds (fun _ => [171, 205]) (fun s => some s) (fun _ => some (-400))
      [CsvRow.mk "d" "x" "" "" "A", CsvRow.mk "d" "x" "" "" "A"]).get? 0 = some
      (generate_base_hash (fun _ => [171, 205]) "d" (trimStr "A") (-400) ++ "-" ++
        natRepr (([] : List CsvRow).countP (fun r => rowBase (fun _ => [171, 205])
          (fun s => some s) (fun _ => some (-400)) r ==
          some (generate_base_hash (fun _ => [171, 205]) "d" (trimStr "A") (-400))))) ∧
    (import_csv_content (fun _ => [171, 205]) (fun s => some s) (fun _ => some (-400))
      [CsvRow.mk "d" "x" "" "" "A", CsvRow.mk "d" "x" "" "" "A"] "f.csv" (Db.mk [] [] []) 1 1).1.imported = 2 := by
  refine ⟨fun _ => trivial, ?_, ?_⟩
  · have h := (claim_C3 (fun _ => [171, 205]) (fun s => some s) (fun _ => some (-400))).1
      [CsvRow.mk "d" "x" "" "" "A", CsvRow.mk "d" "x" "" "" "A"]
      (fun r _ => ⟨rfl, rfl⟩) 0 (by decide) "d" (-400) rfl rfl
    simpa using h
  · have h := (claim_C3 (fun _ => [171, 205]) (fun s => some s) (fun _ => some (-400))).2
      (CsvRow.mk "d" "x" "" "" "A") (Db.mk [] [] []) 1 1 "f.csv" "d" (-400) rfl rfl
      (by intro t ht; exact absurd ht (List.not_mem_nil t))
    exact h.2.2.2.1

-- ══════════ lemmas: the matcher ══════════

theorem maxSnd_le {l : List (VendorInfo × Nat)} {e : VendorInfo × Nat} (he : e ∈ l) :
    e.2 ≤ maxSnd l := by
  induction l with
  | nil => cases he
  | cons x xs ih =>
    rcases List.mem_cons.mp he with h | h
    · subst h; exact Nat.le_max_left _ _
    · exact Nat.le_trans (ih h) (Nat.le_max_right _ _)

theorem maxSnd_attained {l : List (VendorInfo × Nat)} (h : l ≠ []) :
    ∃ e ∈ l, e.2 = maxSnd l := by
  induction l with
  | nil => exact absurd rfl h
  | cons x xs ih =>
    by_cases hxs : xs = []
    · subst hxs
      exact ⟨x, List.mem_cons_self _ _, by simp [maxSnd]⟩
    · obtain ⟨e, he, hmax⟩ := ih hxs
      by_cases hc : maxSnd xs ≤ x.2
      · refine ⟨x, List.mem_cons_self _ _, ?_⟩
        show x.2 = max x.2 (maxSnd xs)
        rw [Nat.max_eq_left hc]
      · refine ⟨e, List.mem_cons_of_mem _ he, ?_⟩
        show e.2 = max x.2 (maxSnd xs)
        rw [Nat.max_eq_right (Nat.le_of_lt (Nat.lt_of_not_le hc))]
        exact hmax

-- ══════════ claims C4 and C7 ══════════

/-- C4 (as stated) is falsified by a candidate whose only pattern is the empty
    string: it is enabled, above threshold and has one pattern, its pattern
    occurs in every description under substring containment (the spec's match
    notion), yet the matcher returns none because Python treats the empty
    pattern as falsy and skips it. -/
theorem claim_C4_counterexample :
    specVendorMatches "X" (VendorInfo.mk 1 1 "A" (some (VendorRules.mk [""] none none none true 5 0 10000))) = true ∧
    (VendorRules.mk [""] none none none true 5 0 10000).enabled = true ∧
    7000 ≤ (VendorRules.mk [""] none none none true 5 0 10000).confidence ∧
    (VendorRules.mk [""] none none none true 5 0 10000).patterns ≠ [] ∧
    find_matching_vendor "X"
      [VendorInfo.mk 1 1 "A" (some (VendorRules.mk [""] none none none true 5 0 10000))] = none := by
  refine ⟨by decide, by decide, by decide, by decide, by decide⟩

/-- C4 (amended: "pattern" must be a non-empty pattern, matching the Python
    truthiness guard): the matcher returns none exactly when no candidate has
    a non-empty pattern occurring case-insensitively in the description, and
    otherwise returns one matching vendor whose assigned_count is maximal
    among all matching candidates. -/
theorem claim_C4_amended (description : String) (candidates : List VendorInfo) :
    ((∀ vi ∈ candidates, vendorMatchesNonempty description vi = false) →
      find_matching_vendor description candidates = none) ∧
    (∀ vi₀ ∈ candidates, vendorMatchesNonempty description vi₀ = true →
      ∃ vi, find_matching_vendor description candidates = some vi ∧
        vendorMatchesNonempty description vi = true ∧
        ∀ vj ∈ candidates, vendorMatchesNonempty description vj = true →
          assignedCountOf vj ≤ assignedCountOf vi) := by
  constructor
  · intro hnone
    have hnil : candidates.filterMap (fun vi =>
        match vi.rules with
        | some r => if rulesHit (upperStr description) r then some (vi, r.assigned_count) else none
        | none => none) = [] := by
      rw [List.filterMap_eq_nil]
      intro vi hvi
      have := hnone vi hvi
      cases hr : vi.rules with
      | none => simp
      | some r =>
        simp only [vendorMatchesNonempty, hr] at this
        simp [hr, this]
    simp only [find_matching_vendor, hnil]
    rfl
  · intro vi₀ hvi₀ hm
    set hits := candidates.filterMap (fun vi =>
        match vi.rules with
        | some r => if rulesHit (upperStr description) r then some (vi, r.assigned_count) else none
        | none => none) with hhits
    have hmemf : ∀ vj ∈ candidates, vendorMatchesNonempty description vj = true →
        (vj, assignedCountOf vj) ∈ hits := by
      intro vj hvj hmj
      rw [hhits]
      apply List.mem_filterMap.mpr
      refine ⟨vj, hvj, ?_⟩
      cases hr : vj.rules with
      | none => simp [vendorMatchesNonempty, hr] at hmj
      | some r =>
        simp only [vendorMatchesNonempty, hr] at hmj
        simp [hr, hmj, assignedCountOf]
    have hne : hits ≠ [] := by
      intro h0
      have := hmemf vi₀ hvi₀ hm
      rw [h0] at this
      cases this
    obtain ⟨w, hw, hwmax⟩ := maxSnd_attained hne
    have hfind : ∃ e, hits.find? (fun e => e.2 == maxSnd hits) = some e := by
      have : (hits.find? (fun e => e.2 == maxSnd hits)).isSome := by
        rw [List.find?_isSome]
        exact ⟨w, hw, by simp [hwmax]⟩
      exact Option.isSome_iff_exists.mp this
    obtain ⟨e, he⟩ := hfind
    have hemem : e ∈ hits := List.mem_of_find?_eq_some he
    have hep := List.find?_some he
    have heq : e.2 = maxSnd hits := by simpa using hep
    obtain ⟨vj, hvj, hfj⟩ := List.mem_filterMap.mp (hhits ▸ hemem)
    have hvj' : ∃ r, vj.rules = some r ∧ rulesHit (upperStr description) r = true ∧
        e = (vj, r.assigned_count) := by
      cases hr : vj.rules with
      | none => simp only [hr] at hfj; cases hfj
      | some r =>
        simp only [hr] at hfj
        by_cases hh : rulesHit (upperStr description) r = true
        · rw [if_pos hh] at hfj
          exact ⟨r, rfl, hh, (Option.some.injEq _ _).mp hfj.symm⟩
        · rw [if_neg hh] at hfj; cases hfj
    obtain ⟨r, hr, hhit, hev⟩ := hvj'
    refine ⟨vj, ?_, ?_, ?_⟩
    · rw [find_matching_vendor]
      simp only [← hhits, he, hev]
    · simp [vendorMatchesNonempty, hr, hhit]
    · intro vk hvk hmk
      have hk := hmemf vk hvk hmk
      have hle := maxSnd_le hk
      rw [← heq, hev] at hle
      simpa [assignedCountOf, hr] using hle

theorem claim_C4_amended_witness :
    (vendorMatchesNonempty "ACME STORE"
      (VendorInfo.mk 1 1 "A" (some (VendorRules.mk ["ACME"] none none none true 5 0 10000))) = true) ∧
    (∃ vi, find_matching_vendor "ACME STORE"
        [VendorInfo.mk 1 1 "A" (some (VendorRules.mk ["ACME"] none none none true 5 0 10000))] = some vi ∧
      vendorMatchesNonempty "ACME STORE" vi = true ∧
      ∀ vj ∈ [VendorInfo.mk 1 1 "A" (some (VendorRules.mk ["ACME"] none none none true 5 0 10000))],
        vendorMatchesNonempty "ACME STORE" vj = true → assignedCountOf vj ≤ assignedCountOf vi) :=
  ⟨by decide,
    (claim_C4_amended "ACME STORE"
      [VendorInfo.mk 1 1 "A" (some (VendorRules.mk ["ACME"] none none none true 5 0 10000))]).2
      (VendorInfo.mk 1 1 "A" (some (VendorRules.mk ["ACME"] none none none true 5 0 10000)))
      (List.mem_cons_self _ _) (by decide)⟩

/-- C7: the pattern extractor returns 0, 1 or 2 patterns; it returns the empty
    list exactly when no token survives the length/digit/noise filters, and
    otherwise the first surviving token, then optionally the first two joined
    by one space; on the Wells-Fargo style example the first pattern is
    STARBUCKS. -/
theorem claim_C7 :
    (∀ d : String, (extract_description_patterns d).length ≤ 2) ∧
    (∀ d : String, extract_description_patterns d = [] ↔ meaningfulTokens d = []) ∧
    (∀ (d : String) (a : String), meaningfulTokens d = [a] → extract_description_patterns d = [a]) ∧
    (∀ (d : String) (a b : String) (rest : List String), meaningfulTokens d = a :: b :: rest →
      extract_description_patterns d = [a, a ++ " " ++ b]) ∧
    (extract_description_patterns "CHECKCARD PURCHASE STARBUCKS #1234 SEATTLE WA").head? =
      some "STARBUCKS" := by
  refine ⟨?_, ?_, ?_, ?_, by decide⟩
  · intro d
    rcases h : meaningfulTokens d with _ | ⟨a, _ | ⟨b, rest⟩⟩ <;>
      simp [extract_description_patterns, h]
  · intro d
    rcases h : meaningfulTokens d with _ | ⟨a, _ | ⟨b, rest⟩⟩ <;>
      simp [extract_description_patterns, h]
  · intro d a h
    simp [extract_description_patterns, h]
  · intro d a b rest h
    simp [extract_description_patterns, h]

theorem claim_C7_witness :
    (meaningfulTokens "ACME SUPPLY STORE" = ["ACME", "SUPPLY", "STORE"]) ∧
    extract_description_patterns "ACME SUPPLY STORE" = ["ACME", "ACME SUPPLY"] :=
  ⟨by decide, claim_C7.2.2.2.1 "ACME SUPPLY STORE" "ACME" "SUPPLY" ["STORE"] (by decide)⟩

-- ══════════ lemmas: first-match decompositions ══════════

theorem updateFirst_decomp {α : Type} {p : α → Bool} {f : α → α} {pre : List α} {x : α}
    (post : List α) (hpre : ∀ y ∈ pre, p y = false) (hx : p x = true) :
    updateFirst p f (pre ++ x :: post) = pre ++ f x :: post := by
  induction pre with
  | nil => simp [updateFirst, hx]
  | cons a l ih =>
    have ha := hpre a (List.mem_cons_self _ _)
    simp only [List.cons_append, updateFirst, ha, Bool.false_eq_true, if_false]
    exact congrArg (fun t => a :: t) (ih (fun y hy => hpre y (List.mem_cons_of_mem _ hy)))

theorem find?_decomp {α : Type} {p : α → Bool} {pre : List α} {x : α}
    (post : List α) (hpre : ∀ y ∈ pre, p y = false) (hx : p x = true) :
    (pre ++ x :: post).find? p = some x := by
  induction pre with
  | nil => simp [List.find?_cons, hx]
  | cons a l ih =>
    have ha := hpre a (List.mem_cons_self _ _)
    simp only [List.cons_append, List.find?_cons, ha]
    exact ih (fun y hy => hpre y (List.mem_cons_of_mem _ hy))

theorem updateFirst_mem {α : Type} {p : α → Bool} {f : α → α} :
    ∀ {l : List α} {x : α}, x ∈ updateFirst p f l → x ∈ l ∨ ∃ y ∈ l, x = f y := by
  intro l
  induction l with
  | nil => intro x hx; cases hx
  | cons a as ih =>
    intro x hx
    by_cases ha : p a = true
    · simp only [updateFirst, ha, if_true] at hx
      rcases List.mem_cons.mp hx with h | h
      · exact Or.inr ⟨a, List.mem_cons_self _ _, h⟩
      · exact Or.inl (List.mem_cons_of_mem _ h)
    · simp only [updateFirst, ha] at hx
      rcases List.mem_cons.mp hx with h | h
      · exact Or.inl (h ▸ List.mem_cons_self _ _)
      · rcases ih h with h' | ⟨y, hy, hxy⟩
        · exact Or.inl (List.mem_cons_of_mem _ h')
        · exact Or.inr ⟨y, List.mem_cons_of_mem _ hy, hxy⟩

-- ══════════ claims C8 and C10 ══════════

/-- C8 (as stated) is falsified by a record whose current vendor is the empty
    string: it is non-null, the record is auto-categorized and the vendor is
    edited to a different value, the old vendor row has a rule payload, yet no
    penalty is applied because `if old_vendor` treats "" as falsy. -/
theorem claim_C8_counterexample :
    (update_transaction
        { id := "t1", account_id := 1, transaction_date := "d", description := "X",
          amount := -400, source_file := "f", raw_data := CsvRow.mk "d" "-4.00" "" "" "X",
          vendor := some "", auto_categorized := true }
        { vendor := some (some "NEW") }
        [{ id := 7, account_id := 1, vendor_name := "",
           rules := some (VendorRules.mk ["Z"] none none none true 10 0 10000) }]).2
      = [{ id := 7, account_id := 1, vendor_name := "",
           rules := some (VendorRules.mk ["Z"] none none none true 10 0 10000) }] ∧
    (Transaction.auto_categorized
      { id := "t1", account_id := 1, transaction_date := "d", description := "X",
        amount := -400, source_file := "f", raw_data := CsvRow.mk "d" "-4.00" "" "" "X",
        vendor := some "", auto_categorized := true }) = true ∧
    (Transaction.vendor
      { id := "t1", account_id := 1, transaction_date := "d", description := "X",
        amount := -400, source_file := "f", raw_data := CsvRow.mk "d" "-4.00" "" "" "X",
        vendor := some "", auto_categorized := true }) = some "" ∧
    (TransactionUpdate.vendor { vendor := some (some "NEW") } = some (some "NEW")) ∧
    some "NEW" ≠ some "" ∧
    (VendorRules.mk ["Z"] none none none true 10 0 10000).corrected_count = 0 := by
  refine ⟨by decide, by decide, by decide, by decide, by decide, by decide⟩

/-- C8 (amended: the current vendor must be non-empty, not merely non-null,
    matching the Python truthiness guard): editing the vendor of an
    auto-categorized record away from its non-empty old vendor increments the
    old vendor rule's corrected_count, recomputes confidence from the
    invariant formula, disables the rule exactly when the new confidence
    drops below 0.70, and modifies no other vendor row. -/
theorem claim_C8_amended (tx : Transaction) (u : TransactionUpdate)
    (vendors vpre vpost : List VendorInfo) (vi : VendorInfo) (ov : String) (nv : Option String)
    (r : VendorRules)
    (hauto : tx.auto_categorized = true) (hov : tx.vendor = some ov) (hove : ov ≠ "")
    (hu : u.vendor = some nv) (hnv : nv ≠ some ov)
    (hdec : vendors = vpre ++ vi :: vpost)
    (hpre : ∀ x ∈ vpre, (x.account_id == tx.account_id && x.vendor_name == ov) = false)
    (hacc : vi.account_id = tx.account_id) (hname : vi.vendor_name = ov)
    (hr : vi.rules = some r) :
    ∃ r', (update_transaction tx u vendors).2 = vpre ++ { vi with rules := some r' } :: vpost ∧
      r'.corrected_count = r.corrected_count + 1 ∧
      r'.assigned_count = r.assigned_count ∧
      r'.confidence = computeConfidence (r.corrected_count + 1) r.assigned_count ∧
      r'.patterns = r.patterns ∧
      (r'.confidence < 7000 → r'.enabled = false) ∧
      (7000 ≤ r'.confidence → r'.enabled = r.enabled) := by
  subst hdec
  have hpred : (vi.account_id == tx.account_id && vi.vendor_name == ov) = true := by
    simp [hacc, hname]
  have h2 : (update_transaction tx u (vpre ++ vi :: vpost)).2
      = updateFirst (fun x => x.account_id == tx.account_id && x.vendor_name == ov)
          correctionStep (vpre ++ vi :: vpost) := by
    simp [update_transaction, hauto, hov, hu, hove, hnv]
  rw [h2, updateFirst_decomp vpost hpre hpred]
  by_cases hconf : computeConfidence (r.corrected_count + 1) r.assigned_count < 7000
  · refine ⟨VendorRules.mk r.patterns r.default_category r.default_project r.by_sign false
        r.assigned_count (r.corrected_count + 1)
        (computeConfidence (r.corrected_count + 1) r.assigned_count),
      ?_, rfl, rfl, rfl, rfl, fun _ => rfl,
      fun hc => absurd (show 7000 ≤ computeConfidence (r.corrected_count + 1) r.assigned_count
        from hc) (by omega)⟩
    have hstep : correctionStep vi
        = { vi with rules := some (VendorRules.mk r.patterns r.default_category r.default_project
            r.by_sign false r.assigned_count (r.corrected_count + 1)
            (computeConfidence (r.corrected_count + 1) r.assigned_count)) } := by
      simp [correctionStep, hr, hconf]
    rw [hstep]
  · refine ⟨VendorRules.mk r.patterns r.default_category r.default_project r.by_sign r.enabled
        r.assigned_count (r.corrected_count + 1)
        (computeConfidence (r.corrected_count + 1) r.assigned_count),
      ?_, rfl, rfl, rfl, rfl, fun hc => absurd hc hconf, fun _ => rfl⟩
    have hstep : correctionStep vi
        = { vi with rules := some (VendorRules.mk r.patterns r.default_category r.default_project
            r.by_sign r.enabled r.assigned_count (r.corrected_count + 1)
            (computeConfidence (r.corrected_count + 1) r.assigned_count)) } := by
      simp [correctionStep, hr, hconf]
    rw [hstep]

theorem claim_C8_amended_witness :
    ((Transaction.auto_categorized
      { id := "t1", account_id := 1, transaction_date := "d", description := "X",
        amount := -400, source_file := "f", raw_data := CsvRow.mk "d" "-4.00" "" "" "X",
        vendor := some "OLD", auto_categorized := true }) = true) ∧
    (∃ r', (update_transaction
        { id := "t1", account_id := 1, transaction_date := "d", description := "X",
          amount := -400, source_file := "f", raw_data := CsvRow.mk "d" "-4.00" "" "" "X",
          vendor := some "OLD", auto_categorized := true }
        { vendor := some (some "NEW") }
        [{ id := 7, account_id := 1, vendor_name := "OLD",
           rules := some (VendorRules.mk ["Z"] none none none true 10 0 10000) }]).2
        = [] ++ VendorInfo.mk 7 1 "OLD" (some r') :: [] ∧
      r'.corrected_count = (VendorRules.mk ["Z"] none none none true 10 0 10000).corrected_count + 1 ∧
      r'.assigned_count = (VendorRules.mk ["Z"] none none none true 10 0 10000).assigned_count ∧
      r'.confidence = computeConfidence
        ((VendorRules.mk ["Z"] none none none true 10 0 10000).corrected_count + 1)
        (VendorRules.mk ["Z"] none none none true 10 0 10000).assigned_count ∧
      r'.patterns = (VendorRules.mk ["Z"] none none none true 10 0 10000).patterns ∧
      (r'.confidence < 7000 → r'.enabled = false) ∧
      (7000 ≤ r'.confidence → r'.enabled = (VendorRules.mk ["Z"] none none none true 10 0 10000).enabled)) :=
  ⟨by decide,
    claim_C8_amended
      { id := "t1", account_id := 1, transaction_date := "d", description := "X",
        amount := -400, source_file := "f", raw_data := CsvRow.mk "d" "-4.00" "" "" "X",
        vendor := some "OLD", auto_categorized := true }
      { vendor := some (some "NEW") }
      [{ id := 7, account_id := 1, vendor_name := "OLD",
         rules := some (VendorRules.mk ["Z"] none none none true 10 0 10000) }]
      [] []
      (VendorInfo.mk 7 1 "OLD" (some (VendorRules.mk ["Z"] none none none true 10 0 10000)))
      "OLD" (some "NEW") (VendorRules.mk ["Z"] none none none true 10 0 10000)
      rfl rfl (by decide) rfl (by decide) rfl (by intro x hx; cases hx) rfl rfl rfl⟩

/-- C10 (as stated) is falsified by a record whose current vendor is the empty
    string: "" is non-null, yet sending an explicit vendor = null applies no
    correction penalty because the old-vendor truthiness guard fails. -/
theorem claim_C10_counterexample :
    (update_transaction
        { id := "t2", account_id := 1, transaction_date := "d", description := "Y",
          amount := -100, source_file := "f", raw_data := CsvRow.mk "d" "-1.00" "" "" "Y",
          vendor := some "", auto_categorized := true }
        { vendor := some none }
        [{ id := 9, account_id := 1, vendor_name := "",
           rules := some (VendorRules.mk ["Q"] none none none true 4 0 10000) }]).2
      = [{ id := 9, account_id := 1, vendor_name := "",
           rules := some (VendorRules.mk ["Q"] none none none true 4 0 10000) }] ∧
    (Transaction.vendor
      { id := "t2", account_id := 1, transaction_date := "d", description := "Y",
        amount := -100, source_file := "f", raw_data := CsvRow.mk "d" "-1.00" "" "" "Y",
        vendor := some "", auto_categorized := true }) = some "" ∧
    (Transaction.auto_categorized
      { id := "t2", account_id := 1, transaction_date := "d", description := "Y",
        amount := -100, source_file := "f", raw_data := CsvRow.mk "d" "-1.00" "" "" "Y",
        vendor := some "", auto_categorized := true }) = true ∧
    (TransactionUpdate.vendor { vendor := some none } = some none) ∧
    (VendorRules.mk ["Q"] none none none true 4 0 10000).corrected_count = 0 := by
  refine ⟨by decide, by decide, by decide, by decide, by decide⟩

/-- C10 (amended: the "in particular" scenario requires a non-empty current
    vendor, matching the Python truthiness guard): an explicit null in the
    update payload never clears a stored field, and sending vendor = null for
    an auto-categorized record with a non-empty vendor still penalizes the
    old vendor's rule and clears auto_categorized while the stored vendor
    stays unchanged. -/
theorem claim_C10_amended (tx : Transaction) (u : TransactionUpdate)
    (vendors vpre vpost : List VendorInfo) (vi : VendorInfo) (ov : String) (r : VendorRules)
    (hauto : tx.auto_categorized = true) (hov : tx.vendor = some ov) (hove : ov ≠ "")
    (hu : u.vendor = some none)
    (hdec : vendors = vpre ++ vi :: vpost)
    (hpre : ∀ x ∈ vpre, (x.account_id == tx.account_id && x.vendor_name == ov) = false)
    (hacc : vi.account_id = tx.account_id) (hname : vi.vendor_name = ov)
    (hr : vi.rules = some r) :
    (∀ (tx₂ : Transaction) (u₂ : TransactionUpdate) (vs₂ : List VendorInfo),
      (u₂.category = some none → (update_transaction tx₂ u₂ vs₂).1.category = tx₂.category) ∧
      (u₂.vendor = some none → (update_transaction tx₂ u₂ vs₂).1.vendor = tx₂.vendor) ∧
      (u₂.project = some none → (update_transaction tx₂ u₂ vs₂).1.project = tx₂.project) ∧
      (u₂.notes = some none → (update_transaction tx₂ u₂ vs₂).1.notes = tx₂.notes) ∧
      (u₂.tags = some none → (update_transaction tx₂ u₂ vs₂).1.tags = tx₂.tags) ∧
      (u₂.tax_deductible = some none →
        (update_transaction tx₂ u₂ vs₂).1.tax_deductible = tx₂.tax_deductible) ∧
      (u₂.is_transfer = some none →
        (update_transaction tx₂ u₂ vs₂).1.is_transfer = tx₂.is_transfer) ∧
      (u₂.is_cleaned = some none →
        (update_transaction tx₂ u₂ vs₂).1.is_cleaned = tx₂.is_cleaned)) ∧
    (update_transaction tx u vendors).1.vendor = tx.vendor ∧
    (update_transaction tx u vendors).1.auto_categorized = false ∧
    ∃ r', (update_transaction tx u vendors).2 = vpre ++ { vi with rules := some r' } :: vpost ∧
      r'.corrected_count = r.corrected_count + 1 := by
  subst hdec
  refine ⟨?_, ?_, ?_, ?_⟩
  · intro tx₂ u₂ vs₂
    refine ⟨?_, ?_, ?_, ?_, ?_, ?_, ?_, ?_⟩ <;>
      intro h <;>
      simp [update_transaction, applyUpdateFields, h] <;>
      split <;> rfl
  · simp only [update_transaction, applyUpdateFields, hu]
    split
    · next v heq => simp [Option.join] at heq
    · split <;> rfl
  · simp [update_transaction, applyUpdateFields, hauto, hu]
  · have hpred : (vi.account_id == tx.account_id && vi.vendor_name == ov) = true := by
      simp [hacc, hname]
    have h2 : (update_transaction tx u (vpre ++ vi :: vpost)).2
        = updateFirst (fun x => x.account_id == tx.account_id && x.vendor_name == ov)
            correctionStep (vpre ++ vi :: vpost) := by
      simp [update_transaction, hauto, hov, hu, hove]
    rw [h2, updateFirst_decomp vpost hpre hpred]
    by_cases hconf : computeConfidence (r.corrected_count + 1) r.assigned_count < 7000
    · refine ⟨VendorRules.mk r.patterns r.default_category r.default_project r.by_sign false
          r.assigned_count (r.corrected_count + 1)
          (computeConfidence (r.corrected_count + 1) r.assigned_count), ?_, rfl⟩
      have hstep : correctionStep vi
          = { vi with rules := some (VendorRules.mk r.patterns r.default_category r.default_project
              r.by_sign false r.assigned_count (r.corrected_count + 1)
              (computeConfidence (r.corrected_count + 1) r.assigned_count)) } := by
        simp [correctionStep, hr, hconf]
      rw [hstep]
    · refine ⟨VendorRules.mk r.patterns r.default_category r.default_project r.by_sign r.enabled
          r.assigned_count (r.corrected_count + 1)
          (computeConfidence (r.corrected_count + 1) r.assigned_count), ?_, rfl⟩
      have hstep : correctionStep vi
          = { vi with rules := some (VendorRules.mk r.patterns r.default_category r.default_project
              r.by_sign r.enabled r.assigned_count (r.corrected_count + 1)
              (computeConfidence (r.corrected_count + 1) r.assigned_count)) } := by
        simp [correctionStep, hr, hconf]
      rw [hstep]

theorem claim_C10_amended_witness :
    ((TransactionUpdate.vendor { vendor := some none } : Option (Option String)) = some none) ∧
    ((update_transaction
        { id := "t3", account_id := 1, transaction_date := "d", description := "Z",
          amount := -100, source_file := "f", raw_data := CsvRow.mk "d" "-1.00" "" "" "Z",
          vendor := some "OLD", auto_categorized := true }
        { vendor := some none }
        [{ id := 9, account_id := 1, vendor_name := "OLD",
           rules := some (VendorRules.mk ["Q"] none none none true 4 0 10000) }]).1.vendor
      = some "OLD" ∧
     (update_transaction
        { id := "t3", account_id := 1, transaction_date := "d", description := "Z",
          amount := -100, source_file := "f", raw_data := CsvRow.mk "d" "-1.00" "" "" "Z",
          vendor := some "OLD", auto_categorized := true }
        { vendor := some none }
        [{ id := 9, account_id := 1, vendor_name := "OLD",
           rules := some (VendorRules.mk ["Q"] none none none true 4 0 10000) }]).1.auto_categorized
      = false) :=
  ⟨by decide,
    by
      have h := claim_C10_amended
        { id := "t3", account_id := 1, transaction_date := "d", description := "Z",
          amount := -100, source_file := "f", raw_data := CsvRow.mk "d" "-1.00" "" "" "Z",
          vendor := some "OLD", auto_categorized := true }
        { vendor := some none }
        [{ id := 9, account_id := 1, vendor_name := "OLD",
           rules := some (VendorRules.mk ["Q"] none none none true 4 0 10000) }]
        [] []
        (VendorInfo.mk 9 1 "OLD" (some (VendorRules.mk ["Q"] none none none true 4 0 10000)))
        "OLD" (VendorRules.mk ["Q"] none none none true 4 0 10000)
        rfl rfl (by decide) rfl rfl (by intro x hx; cases hx) rfl rfl rfl
      exact ⟨h.2.1, h.2.2.1⟩⟩

-- ══════════ claim C9 ══════════

/-- C9: approving a pending suggestion (with no overrides and truthy suggested
    values) writes vendor, category, project and auto_categorized = true on
    every referenced record, increments the vendor rule's assigned_count by
    the number of referenced records, and marks the suggestion approved;
    approve or dismiss on a non-pending suggestion reports a conflict and
    mutates nothing. -/
theorem claim_C9 (db : Db) (spre spost spre₂ spost₂ : List ImportSuggestion)
    (s s₂ : ImportSuggestion) (vpre vpost : List VendorInfo) (vi : VendorInfo) (r : VendorRules)
    (sc sp : String) (vid : Nat)
    (hdec : db.suggestions = spre ++ s :: spost)
    (hpre : ∀ x ∈ spre, x.id ≠ s.id)
    (hpending : s.status = "pending")
    (hsvne : s.suggested_vendor ≠ "")
    (hsc : s.suggested_category = some sc) (hscne : sc ≠ "")
    (hsp : s.suggested_project = some sp) (hspne : sp ≠ "")
    (hvid : s.vendor_info_id = some vid) (hvid0 : vid ≠ 0)
    (hvdec : db.vendors = vpre ++ vi :: vpost)
    (hvpre : ∀ x ∈ vpre, x.id ≠ vid)
    (hvi : vi.id = vid)
    (hvr : vi.rules = some r)
    (hdec₂ : db.suggestions = spre₂ ++ s₂ :: spost₂)
    (hpre₂ : ∀ x ∈ spre₂, x.id ≠ s₂.id)
    (hnp : s₂.status ≠ "pending") :
    (approve_suggestion db s.id none).2 = Except.ok () ∧
    (approve_suggestion db s.id none).1.transactions
      = db.transactions.map (fun t => if s.transaction_ids.contains t.id
          then { t with vendor := some s.suggested_vendor, category := some sc,
                        project := some sp, auto_categorized := true }
          else t) ∧
    (approve_suggestion db s.id none).1.vendors
      = vpre ++ { vi with rules := some { r with assigned_count := r.assigned_count + s.transaction_ids.length } } :: vpost ∧
    (approve_suggestion db s.id none).1.suggestions
      = spre ++ { s with status := "approved" } :: spost ∧
    (∀ body, approve_suggestion db s₂.id body = (db, Except.error ApiError.conflict)) ∧
    dismiss_suggestion db s₂.id = (db, Except.error ApiError.conflict) := by
  have hfind : db.suggestions.find? (fun x => x.id == s.id) = some s := by
    rw [hdec]
    exact find?_decomp spost (fun y hy => by simp [hpre y hy]) (by simp)
  have hfind₂ : db.suggestions.find? (fun x => x.id == s₂.id) = some s₂ := by
    rw [hdec₂]
    exact find?_decomp spost₂ (fun y hy => by simp [hpre₂ y hy]) (by simp)
  have hstatus : (s.status != "pending") = false := by simp [hpending]
  have hstatus₂ : (s₂.status != "pending") = true := by simp [hnp]
  have happly : ∀ t : Transaction,
      applySuggestionValues (orTruthy none (some s.suggested_vendor))
        (orTruthy none s.suggested_category) (orTruthy none s.suggested_project) t
      = { t with vendor := some s.suggested_vendor, category := some sc,
                 project := some sp, auto_categorized := true } := by
    intro t
    simp [applySuggestionValues, orTruthy, strTruthy, hsvne, hsc, hscne, hsp, hspne]
  refine ⟨?_, ?_, ?_, ?_, ?_, ?_⟩
  · simp only [approve_suggestion, hfind, hstatus, Bool.false_eq_true, if_false]
  · simp only [approve_suggestion, hfind, hstatus, Bool.false_eq_true, if_false]
    by_cases hemp : s.transaction_ids.isEmpty
    · have hnil : s.transaction_ids = [] := List.isEmpty_iff.mp hemp
      simp [hemp, hnil]
    · simp only [hemp, Bool.false_eq_true, if_false]
      apply List.map_congr_left
      intro t _
      by_cases hc : s.transaction_ids.contains t.id
      · rw [if_pos hc, if_pos hc, happly]
      · rw [if_neg hc, if_neg hc]
  · simp only [approve_suggestion, hfind, hstatus, Bool.false_eq_true, if_false]
    have hnat : natTruthy s.vendor_info_id = true := by
      rw [hvid]
      simp [natTruthy, hvid0]
    simp only [hnat, if_true, hvdec]
    rw [updateFirst_decomp vpost
      (fun y hy => by rw [hvid]; simp [hvpre y hy])
      (by rw [hvid]; simp [hvi])]
    simp [hvr]
  · simp only [approve_suggestion, hfind, hstatus, Bool.false_eq_true, if_false]
    rw [hdec, updateFirst_decomp spost (fun y hy => by simp [hpre y hy]) (by simp)]
  · intro body
    simp only [approve_suggestion, hfind₂, hstatus₂, if_true]
  · simp only [dismiss_suggestion, hfind₂, hstatus₂, if_true]

theorem claim_C9_witness :
    (approve_suggestion
      (Db.mk []
        [VendorInfo.mk 7 1 "VEND" (some (VendorRules.mk ["VE"] none none none true 3 0 10000))]
        [ImportSuggestion.mk 1 1 (some 7) "VEND" (some "Food") (some "Proj") "VE" ["tx1"] "pending",
         ImportSuggestion.mk 2 1 (some 7) "VEND" (some "Food") (some "Proj") "VE" [] "approved"])
      1 none).2 = Except.ok () ∧
    (approve_suggestion
      (Db.mk []
        [VendorInfo.mk 7 1 "VEND" (some (VendorRules.mk ["VE"] none none none true 3 0 10000))]
        [ImportSuggestion.mk 1 1 (some 7) "VEND" (some "Food") (some "Proj") "VE" ["tx1"] "pending",
         ImportSuggestion.mk 2 1 (some 7) "VEND" (some "Food") (some "Proj") "VE" [] "approved"])
      2 none)
      = (Db.mk []
          [VendorInfo.mk 7 1 "VEND" (some (VendorRules.mk ["VE"] none none none true 3 0 10000))]
          [ImportSuggestion.mk 1 1 (some 7) "VEND" (some "Food") (some "Proj") "VE" ["tx1"] "pending",
           ImportSuggestion.mk 2 1 (some 7) "VEND" (some "Food") (some "Proj") "VE" [] "approved"],
         Except.error ApiError.conflict) ∧
    dismiss_suggestion
      (Db.mk []
        [VendorInfo.mk 7 1 "VEND" (some (VendorRules.mk ["VE"] none none none true 3 0 10000))]
        [ImportSuggestion.mk 1 1 (some 7) "VEND" (some "Food") (some "Proj") "VE" ["tx1"] "pending",
         ImportSuggestion.mk 2 1 (some 7) "VEND" (some "Food") (some "Proj") "VE" [] "approved"])
      2
      = (Db.mk []
          [VendorInfo.mk 7 1 "VEND" (some (VendorRules.mk ["VE"] none none none true 3 0 10000))]
          [ImportSuggestion.mk 1 1 (some 7) "VEND" (some "Food") (some "Proj") "VE" ["tx1"] "pending",
           ImportSuggestion.mk 2 1 (some 7) "VEND" (some "Food") (some "Proj") "VE" [] "approved"],
         Except.error ApiError.conflict) := by
  have h := claim_C9
    (Db.mk []
      [VendorInfo.mk 7 1 "VEND" (some (VendorRules.mk ["VE"] none none none true 3 0 10000))]
      [ImportSuggestion.mk 1 1 (some 7) "VEND" (some "Food") (some "Proj") "VE" ["tx1"] "pending",
       ImportSuggestion.mk 2 1 (some 7) "VEND" (some "Food") (some "Proj") "VE" [] "approved"])
    [] [ImportSuggestion.mk 2 1 (some 7) "VEND" (some "Food") (some "Proj") "VE" [] "approved"]
    [ImportSuggestion.mk 1 1 (some 7) "VEND" (some "Food") (some "Proj") "VE" ["tx1"] "pending"] []
    (ImportSuggestion.mk 1 1 (some 7) "VEND" (some "Food") (some "Proj") "VE" ["tx1"] "pending")
    (ImportSuggestion.mk 2 1 (some 7) "VEND" (some "Food") (some "Proj") "VE" [] "approved")
    [] []
    (VendorInfo.mk 7 1 "VEND" (some (VendorRules.mk ["VE"] none none none true 3 0 10000)))
    (VendorRules.mk ["VE"] none none none true 3 0 10000)
    "Food" "Proj" 7
    rfl (by intro x hx; cases hx) rfl (by decide) rfl (by decide) rfl (by decide)
    rfl (by decide) rfl (by intro x hx; cases hx) rfl rfl
    rfl (by decide) (by decide)
  exact ⟨h.1, h.2.2.2.2.1 none, h.2.2.2.2.2⟩

-- ══════════ lemmas: the ambiguity pass, pointwise characterization ══════════

theorem get?_modifyIdx_self {α : Type} (f : α → α) :
    ∀ (l : List α) (i : Nat), (modifyIdx f i l).get? i = (l.get? i).map f := by
  intro l
  induction l with
  | nil => intro i; cases i <;> rfl
  | cons a as ih =>
    intro i
    cases i with
    | zero => rfl
    | succ i => exact ih i

theorem get?_modifyIdx_ne {α : Type} (f : α → α) :
    ∀ (l : List α) (i j : Nat), i ≠ j → (modifyIdx f i l).get? j = l.get? j := by
  intro l
  induction l with
  | nil => intro i j _; cases i <;> rfl
  | cons a as ih =>
    intro i j hne
    cases i with
    | zero =>
      cases j with
      | zero => exact absurd rfl hne
      | succ j => rfl
    | succ i =>
      cases j with
      | zero => rfl
      | succ j => exact ih i j (fun h => hne (congrArg Nat.succ h))

theorem stripVendor_idem (p : String) (vi : VendorInfo) :
    stripVendor p (stripVendor p vi) = stripVendor p vi := by
  cases hr : vi.rules with
  | none => simp [stripVendor, hr]
  | some r =>
    have hfil : ((r.patterns.filter (fun x => x != p)).filter (fun x => x != p))
        = r.patterns.filter (fun x => x != p) := by
      rw [List.filter_filter]
      apply List.filter_congr
      intro q _
      cases hq : (q != p) <;> simp [hq]
    simp only [stripVendor, hr]
    rw [hfil]

theorem stripFold_get? (p : String) :
    ∀ (entries : List (Nat × Nat)) (cur : List VendorInfo) (j : Nat),
      (entries.foldl (fun c e => stripPatternAt c e.2 p) cur).get? j
        = if entries.any (fun e => e.2 == j) then (cur.get? j).map (stripVendor p)
          else cur.get? j := by
  intro entries
  induction entries with
  | nil => intro cur j; simp
  | cons e rest ih =>
    intro cur j
    rw [List.foldl_cons]
    by_cases hej : e.2 = j
    · have hany : (e :: rest).any (fun e => e.2 == j) = true := by
        simp [List.any_cons, hej]
      rw [ih (stripPatternAt cur e.2 p) j, hany, if_pos rfl, hej]
      by_cases hrest : rest.any (fun x => x.2 == j)
      · rw [if_pos hrest]
        simp only [stripPatternAt]
        rw [get?_modifyIdx_self, Option.map_map]
        congr 1
        funext vi
        exact stripVendor_idem p vi
      · rw [if_neg hrest]
        simp only [stripPatternAt]
        rw [get?_modifyIdx_self]
    · have hany : (e :: rest).any (fun x => x.2 == j) = rest.any (fun x => x.2 == j) := by
        simp [List.any_cons, hej]
      rw [ih (stripPatternAt cur e.2 p) j, hany]
      rw [stripPatternAt, get?_modifyIdx_ne _ _ _ _ hej]

theorem stripSet_nil (vs : List VendorInfo) (j : Nat) (vi : VendorInfo) :
    stripSet vs [] j vi = vi := by
  cases vi with
  | mk i a n rules =>
    cases rules with
    | none => rfl
    | some r =>
      have hk : ∀ q, keepPat vs [] j q = true := fun q => by simp [keepPat]
      have hfil : List.filter (keepPat vs [] j) r.patterns = r.patterns := by
        rw [List.filter_congr (fun q _ => hk q), List.filter_true]
      simp [stripSet, hfil]

theorem stripSet_cons_skip (vs : List VendorInfo) (p : String) (ps : List String) (j : Nat)
    (vi : VendorInfo) (h : (contestedB vs p && loserB vs p j) = false) :
    stripSet vs (p :: ps) j vi = stripSet vs ps j vi := by
  have hpred : keepPat vs (p :: ps) j = keepPat vs ps j := by
    funext q
    by_cases hq : q = p
    · subst hq
      cases hC : contestedB vs q <;> cases hL : loserB vs q j <;>
        simp_all [keepPat, List.contains_cons]
    · simp [keepPat, List.contains_cons, hq]
  simp only [stripSet, hpred]

theorem stripSet_cons_strip (vs : List VendorInfo) (p : String) (ps : List String) (j : Nat)
    (vi : VendorInfo) (h : (contestedB vs p && loserB vs p j) = true) :
    stripSet vs (p :: ps) j vi = stripSet vs ps j (stripVendor p vi) := by
  have hC : contestedB vs p = true := by
    cases hC : contestedB vs p
    · rw [hC] at h; simp at h
    · rfl
  have hL : loserB vs p j = true := by
    cases hL : loserB vs p j
    · rw [hL] at h; simp at h
    · rfl
  cases hr : vi.rules with
  | none => simp [stripSet, stripVendor, hr]
  | some r =>
    have hpred : (fun q => keepPat vs (p :: ps) j q)
        = fun q => keepPat vs ps j q && (q != p) := by
      funext q
      by_cases hq : q = p
      · subst hq
        simp [keepPat, List.contains_cons, hC, hL]
      · simp [keepPat, List.contains_cons, hq]
    have hfil : r.patterns.filter (keepPat vs (p :: ps) j)
        = (r.patterns.filter (fun x => x != p)).filter (keepPat vs ps j) := by
      rw [List.filter_filter]
      apply List.filter_congr
      intro q _
      exact congrFun hpred q
    simp [stripSet, stripVendor, hr, hfil]

theorem ambFold_get? (vs : List VendorInfo) :
    ∀ (ps : List String) (cur : List VendorInfo) (j : Nat),
      (ps.foldl (ambStep vs) cur).get? j = (cur.get? j).map (stripSet vs ps j) := by
  intro ps
  induction ps with
  | nil =>
    intro cur j
    simp only [List.foldl_nil]
    cases hcur : cur.get? j with
    | none => rfl
    | some vi => simp [stripSet_nil]
  | cons p ps ih =>
    intro cur j
    rw [List.foldl_cons, ih]
    by_cases hlen : (ownerEntries vs p).length ≤ 1
    · have hC : contestedB vs p = false := by
        simp only [contestedB, decide_eq_false_iff_not]
        omega
      have hstep : ambStep vs cur p = cur := by simp [ambStep, hlen]
      rw [hstep]
      cases hcur : cur.get? j with
      | none => rfl
      | some vi =>
        simp only [Option.map]
        rw [stripSet_cons_skip _ _ _ _ _ (by simp [hC])]
    · have hstep : ambStep vs cur p
          = (dropWinner (ownerEntries vs p)).foldl (fun c e => stripPatternAt c e.2 p) cur := by
        simp [ambStep, hlen]
      rw [hstep, stripFold_get? p]
      have hC : contestedB vs p = true := by
        simp only [contestedB, decide_eq_true_eq]
        omega
      by_cases hL : loserB vs p j = true
      · rw [show (dropWinner (ownerEntries vs p)).any (fun e => e.2 == j) = true from hL,
          if_pos rfl]
        cases hcur : cur.get? j with
        | none => rfl
        | some vi =>
          simp only [Option.map]
          rw [stripSet_cons_strip _ _ _ _ _ (by simp [hC, hL])]
      · have hL' : loserB vs p j = false := by
          cases hLL : loserB vs p j
          · rfl
          · exact absurd hLL hL
        rw [show (dropWinner (ownerEntries vs p)).any (fun e => e.2 == j) = false from hL']
        simp only [Bool.false_eq_true, if_false]
        cases hcur : cur.get? j with
        | none => rfl
        | some vi =>
          simp only [Option.map]
          rw [stripSet_cons_skip _ _ _ _ _ (by simp [hL'])]

theorem resolveAmbiguity_get? (vs : List VendorInfo) (j : Nat) :
    (resolveAmbiguity vs).1.get? j = (vs.get? j).map (stripSet vs (allPatternList vs) j) :=
  ambFold_get? vs (allPatternList vs) vs j

-- ══════════ lemmas: owner entries vs holders ══════════

theorem ownerEntriesFrom_mem {p : String} :
    ∀ (vs : List VendorInfo) (k : Nat) (c i : Nat),
      (c, i) ∈ ownerEntriesFrom p k vs ↔
        ∃ m vi, i = k + m ∧ vs.get? m = some vi ∧ p ∈ vendorPatterns vi ∧
          c = assignedCountOf vi := by
  intro vs
  induction vs with
  | nil =>
    intro k c i
    simp [ownerEntriesFrom]
  | cons v rest ih =>
    intro k c i
    rw [ownerEntriesFrom, List.mem_append]
    constructor
    · rintro (h | h)
      · cases hr : v.rules with
        | none => rw [hr] at h; simp at h
        | some r =>
          rw [hr] at h
          obtain ⟨q, hq, he⟩ := List.mem_map.mp h
          obtain ⟨hq1, hq2⟩ := List.mem_filter.mp hq
          have hqp : q = p := by simpa using hq2
          have hc : c = r.assigned_count := by
            have := congrArg Prod.fst he
            simpa using this.symm
          have hi : i = k := by
            have := congrArg Prod.snd he
            simpa using this.symm
          refine ⟨0, v, by omega, rfl, ?_, ?_⟩
          · rw [vendorPatterns, hr]
            exact hqp ▸ hq1
          · rw [assignedCountOf, hr]
            exact hc
      · obtain ⟨m, vi, hm, hget, hp, hc⟩ := (ih (k + 1) c i).mp h
        exact ⟨m + 1, vi, by omega, hget, hp, hc⟩
    · rintro ⟨m, vi, hm, hget, hp, hc⟩
      cases m with
      | zero =>
        left
        have hv : vi = v := by
          have h0 : some vi = some v := hget.symm
          exact (Option.some.injEq _ _).mp h0
        subst hv
        cases hr : vi.rules with
        | none => simp [vendorPatterns, hr] at hp
        | some r =>
          have hpr : p ∈ r.patterns := by simpa [vendorPatterns, hr] using hp
          have hcr : c = r.assigned_count := by simpa [assignedCountOf, hr] using hc
          have hik : i = k := by omega
          apply List.mem_map.mpr
          refine ⟨p, List.mem_filter.mpr ⟨hpr, by simp⟩, ?_⟩
          rw [hcr, hik]
      | succ m =>
        right
        apply (ih (k + 1) c i).mpr
        exact ⟨m, vi, by omega, hget, hp, hc⟩

theorem holdersFrom_mem {p : String} :
    ∀ (vs : List VendorInfo) (k : Nat) (i : Nat),
      i ∈ holdersFrom p k vs ↔
        ∃ m vi, i = k + m ∧ vs.get? m = some vi ∧ p ∈ vendorPatterns vi := by
  intro vs
  induction vs with
  | nil =>
    intro k i
    simp [holdersFrom]
  | cons v rest ih =>
    intro k i
    rw [holdersFrom, List.mem_append]
    constructor
    · rintro (h | h)
      · by_cases hc : (vendorPatterns v).contains p
        · rw [if_pos hc] at h
          have hi : i = k := by simpa using h
          refine ⟨0, v, by omega, rfl, ?_⟩
          simpa using hc
        · rw [if_neg hc] at h
          cases h
      · obtain ⟨m, vi, hm, hget, hp⟩ := (ih (k + 1) i).mp h
        exact ⟨m + 1, vi, by omega, hget, hp⟩
    · rintro ⟨m, vi, hm, hget, hp⟩
      cases m with
      | zero =>
        left
        have hv : vi = v := (Option.some.injEq _ _).mp hget.symm
        subst hv
        have hc : (vendorPatterns vi).contains p := by simpa using hp
        rw [if_pos hc]
        simp
        omega
      | succ m =>
        right
        exact (ih (k + 1) i).mpr ⟨m, vi, by omega, hget, hp⟩

theorem nodup_filter_beq_length {l : List String} (h : l.Nodup) (p : String) :
    (l.filter (fun q => q == p)).length = if p ∈ l then 1 else 0 := by
  induction l with
  | nil => simp
  | cons a as ih =>
    obtain ⟨hna, hnd⟩ := List.nodup_cons.mp h
    by_cases hap : a = p
    · subst hap
      have hnotin : a ∉ as := hna
      rw [List.filter_cons]
      simp only [beq_self_eq_true, if_pos rfl]
      have : as.filter (fun q => q == a) = [] := by
        apply List.filter_eq_nil.mpr
        intro q hq
        simp only [beq_iff_eq]
        intro hqa
        exact hnotin (hqa ▸ hq)
      simp [this]
    · rw [List.filter_cons]
      have : (a == p) = false := by simp [hap]
      simp only [this, Bool.false_eq_true, if_false]
      rw [ih hnd]
      have hmem : (p ∈ a :: as) ↔ (p ∈ as) := by
        simp [List.mem_cons]
        intro hpa
        exact absurd hpa.symm hap
      by_cases hp : p ∈ as
      · rw [if_pos hp, if_pos (hmem.mpr hp)]
      · rw [if_neg hp, if_neg (fun hmm => hp (hmem.mp hmm))]

theorem ownerEntriesFrom_length {p : String} :
    ∀ (vs : List VendorInfo), (∀ vi ∈ vs, (vendorPatterns vi).Nodup) →
      ∀ (k k' : Nat), (ownerEntriesFrom p k vs).length = (holdersFrom p k' vs).length := by
  intro vs
  induction vs with
  | nil => intro _ k k'; rfl
  | cons v rest ih =>
    intro hnd k k'
    rw [ownerEntriesFrom, holdersFrom, List.length_append, List.length_append]
    have hhead : (match v.rules with
        | none => ([] : List (Nat × Nat))
        | some r => (r.patterns.filter (fun q => q == p)).map (fun _ => (r.assigned_count, k))).length
        = (if (vendorPatterns v).contains p then [k'] else []).length := by
      cases hr : v.rules with
      | none =>
        have : vendorPatterns v = [] := by rw [vendorPatterns, hr]
        simp [this]
      | some r =>
        have hvp : vendorPatterns v = r.patterns := by rw [vendorPatterns, hr]
        have hnr : r.patterns.Nodup := by
          rw [← hvp]
          exact hnd v (List.mem_cons_self _ _)
        simp only [List.length_map]
        rw [nodup_filter_beq_length hnr p]
        by_cases hp : p ∈ r.patterns
        · simp [hp, hvp]
        · simp [hp, hvp]
    rw [hhead, ih (fun vi hvi => hnd vi (List.mem_cons_of_mem _ hvi)) (k + 1) (k' + 1)]

theorem ownerEntriesFrom_snd_ge {p : String} {vs : List VendorInfo} {k : Nat} {e : Nat × Nat}
    (h : e ∈ ownerEntriesFrom p k vs) : k ≤ e.2 := by
  obtain ⟨m, vi, hm, _, _, _⟩ := (ownerEntriesFrom_mem vs k e.1 e.2).mp h
  omega

theorem ownerEntriesFrom_snd_nodup {p : String} :
    ∀ (vs : List VendorInfo), (∀ vi ∈ vs, (vendorPatterns vi).Nodup) →
      ∀ (k : Nat), ((ownerEntriesFrom p k vs).map Prod.snd).Nodup := by
  intro vs
  induction vs with
  | nil => intro _ k; simp [ownerEntriesFrom]
  | cons v rest ih =>
    intro hnd k
    rw [ownerEntriesFrom, List.map_append]
    apply List.Nodup.append
    · cases hr : v.rules with
      | none => simp
      | some r =>
        have hnr : r.patterns.Nodup := by
          have := hnd v (List.mem_cons_self _ _)
          rwa [vendorPatterns, hr] at this
        rw [List.map_map]
        have hlen : ((r.patterns.filter (fun q => q == p)).map
            (Prod.snd ∘ fun _ => (r.assigned_count, k))).length ≤ 1 := by
          rw [List.length_map, nodup_filter_beq_length hnr p]
          by_cases hp : p ∈ r.patterns <;> simp [hp]
        rcases hl : (r.patterns.filter (fun q => q == p)).map
            (Prod.snd ∘ fun _ => (r.assigned_count, k)) with _ | ⟨a, _ | ⟨b, t⟩⟩
        · exact List.nodup_nil
        · exact List.nodup_singleton a
        · rw [hl] at hlen
          simp at hlen
    · exact ih (fun vi hvi => hnd vi (List.mem_cons_of_mem _ hvi)) (k + 1)
    · intro a ha hb
      cases hr : v.rules with
      | none =>
        rw [hr] at ha
        simp at ha
      | some r =>
        rw [hr] at ha
        obtain ⟨e, he, hae⟩ := List.mem_map.mp ha
        obtain ⟨q, hq, hqe⟩ := List.mem_map.mp he
        obtain ⟨e', he', hbe⟩ := List.mem_map.mp hb
        have hak : a = k := by rw [← hae, ← hqe]
        have hbk : k + 1 ≤ a := by
          rw [← hbe]
          exact ownerEntriesFrom_snd_ge he'
        omega

theorem maxFst_le {l : List (Nat × Nat)} {e : Nat × Nat} (he : e ∈ l) : e.1 ≤ maxFst l := by
  induction l with
  | nil => cases he
  | cons x xs ih =>
    rcases List.mem_cons.mp he with h | h
    · subst h; exact Nat.le_max_left _ _
    · exact Nat.le_trans (ih h) (Nat.le_max_right _ _)

theorem maxFst_attained {l : List (Nat × Nat)} (h : l ≠ []) : ∃ e ∈ l, e.1 = maxFst l := by
  induction l with
  | nil => exact absurd rfl h
  | cons x xs ih =>
    by_cases hxs : xs = []
    · subst hxs
      exact ⟨x, List.mem_cons_self _ _, by simp [maxFst]⟩
    · obtain ⟨e, he, hmax⟩ := ih hxs
      by_cases hc : maxFst xs ≤ x.1
      · refine ⟨x, List.mem_cons_self _ _, ?_⟩
        show x.1 = max x.1 (maxFst xs)
        rw [Nat.max_eq_left hc]
      · refine ⟨e, List.mem_cons_of_mem _ he, ?_⟩
        show e.1 = max x.1 (maxFst xs)
        rw [Nat.max_eq_right (Nat.le_of_lt (Nat.lt_of_not_le hc))]
        exact hmax

theorem mem_foldl_patterns {q : String} :
    ∀ (vs : List VendorInfo) (acc : List String),
      q ∈ vs.foldl (fun acc vi => acc ++ vendorPatterns vi) acc ↔
        q ∈ acc ∨ ∃ vi ∈ vs, q ∈ vendorPatterns vi := by
  intro vs
  induction vs with
  | nil => intro acc; simp
  | cons v rest ih =>
    intro acc
    rw [List.foldl_cons, ih]
    constructor
    · rintro (h | h)
      · rcases List.mem_append.mp h with h | h
        · exact Or.inl h
        · exact Or.inr ⟨v, List.mem_cons_self _ _, h⟩
      · obtain ⟨vi, hvi, hq⟩ := h
        exact Or.inr ⟨vi, List.mem_cons_of_mem _ hvi, hq⟩
    · rintro (h | ⟨vi, hvi, hq⟩)
      · exact Or.inl (List.mem_append_left _ h)
      · rcases List.mem_cons.mp hvi with h | h
        · subst h
          exact Or.inl (List.mem_append_right _ hq)
        · exact Or.inr ⟨vi, h, hq⟩

theorem mem_allPatternList {vs : List VendorInfo} {j : Nat} {vi : VendorInfo} {p : String}
    (hget : vs.get? j = some vi) (hp : p ∈ vendorPatterns vi) : p ∈ allPatternList vs := by
  rw [allPatternList, List.mem_dedup, mem_foldl_patterns]
  exact Or.inr ⟨vi, List.get?_mem hget, hp⟩

theorem two_mem_length_le_one {i j : Nat} {l : List Nat}
    (hi : i ∈ l) (hj : j ∈ l) (hlen : l.length ≤ 1) : i = j := by
  cases l with
  | nil => cases hi
  | cons a as =>
    cases as with
    | nil =>
      have h1 : i = a := by simpa using hi
      have h2 : j = a := by simpa using hj
      rw [h1, h2]
    | cons b bs => simp at hlen

theorem holdsAt_resolve {vs : List VendorInfo} {j : Nat} {p : String} :
    holdsAt (resolveAmbiguity vs).1 j p ↔
      holdsAt vs j p ∧ (contestedB vs p && loserB vs p j) = false := by
  constructor
  · rintro ⟨vi', hget', hp'⟩
    rw [resolveAmbiguity_get?] at hget'
    obtain ⟨vi, hget, hvi'⟩ := Option.map_eq_some'.mp hget'
    subst hvi'
    cases hr : vi.rules with
    | none =>
      rw [vendorPatterns] at hp'
      simp [stripSet, hr] at hp'
    | some r =>
      have hp'' : p ∈ r.patterns.filter (keepPat vs (allPatternList vs) j) := by
        have : vendorPatterns (stripSet vs (allPatternList vs) j vi)
            = r.patterns.filter (keepPat vs (allPatternList vs) j) := by
          simp [vendorPatterns, stripSet, hr]
        rwa [this] at hp'
      obtain ⟨hpmem, hkeep⟩ := List.mem_filter.mp hp''
      have hholds : holdsAt vs j p := ⟨vi, hget, by rw [vendorPatterns, hr]; exact hpmem⟩
      refine ⟨hholds, ?_⟩
      have hall : p ∈ allPatternList vs :=
        mem_allPatternList hget (by rw [vendorPatterns, hr]; exact hpmem)
      have hcont : (allPatternList vs).contains p = true := by simpa using hall
      rw [keepPat, hcont] at hkeep
      cases hCL : (contestedB vs p && loserB vs p j)
      · rfl
      · rw [Bool.true_and, hCL] at hkeep
        simp at hkeep
  · rintro ⟨⟨vi, hget, hp⟩, hfalse⟩
    refine ⟨stripSet vs (allPatternList vs) j vi, ?_, ?_⟩
    · rw [resolveAmbiguity_get?, hget]
      rfl
    · cases hr : vi.rules with
      | none =>
        rw [vendorPatterns, hr] at hp
        cases hp
      | some r =>
        have hpmem : p ∈ r.patterns := by rwa [vendorPatterns, hr] at hp
        have : vendorPatterns (stripSet vs (allPatternList vs) j vi)
            = r.patterns.filter (keepPat vs (allPatternList vs) j) := by
          simp [vendorPatterns, stripSet, hr]
        rw [this]
        apply List.mem_filter.mpr
        refine ⟨hpmem, ?_⟩
        rw [keepPat]
        cases hC : contestedB vs p <;> cases hL : loserB vs p j <;> simp_all

theorem ownerEntries_mem_iff {vs : List VendorInfo} {p : String} {e : Nat × Nat} :
    e ∈ ownerEntries vs p ↔ holdsAt vs e.2 p ∧ e.1 = assignedAt vs e.2 := by
  obtain ⟨c, i⟩ := e
  rw [ownerEntries, ownerEntriesFrom_mem vs 0 c i]
  constructor
  · rintro ⟨m, vi, hi, hget, hp, hc⟩
    have him : i = m := by omega
    subst him
    refine ⟨⟨vi, hget, hp⟩, ?_⟩
    simp only [assignedAt, hget]
    exact hc
  · rintro ⟨⟨vi, hget, hp⟩, hc⟩
    refine ⟨i, vi, by omega, hget, hp, ?_⟩
    simp only [assignedAt, hget] at hc
    exact hc

theorem holders_mem_iff {vs : List VendorInfo} {p : String} {i : Nat} :
    i ∈ holders vs p ↔ holdsAt vs i p := by
  rw [holders, holdersFrom_mem vs 0 i]
  constructor
  · rintro ⟨m, vi, hi, hget, hp⟩
    have him : i = m := by omega
    subst him
    exact ⟨vi, hget, hp⟩
  · rintro ⟨vi, hget, hp⟩
    exact ⟨i, vi, by omega, hget, hp⟩

theorem resolve_unique_aux {vs : List VendorInfo} {p : String} {i j : Nat}
    (hi : holdsAt vs i p) (hj : holdsAt vs j p)
    (hli : loserB vs p i = false) (hlj : loserB vs p j = false)
    (hcont : contestedB vs p = true) : i = j := by
  have hlen : 1 < (ownerEntries vs p).length := of_decide_eq_true hcont
  have hne : ownerEntries vs p ≠ [] := by
    intro h
    rw [h] at hlen
    simp at hlen
  obtain ⟨e, he, hmax⟩ := maxFst_attained hne
  have hpe : (fun x : Nat × Nat => x.1 == maxFst (ownerEntries vs p)) e = true := by
    simp [hmax]
  obtain ⟨w, l₁, l₂, -, hw, hsplit, herase⟩ :=
    @List.exists_of_eraseP (Nat × Nat) (fun x => x.1 == maxFst (ownerEntries vs p))
      (ownerEntries vs p) e he hpe
  have hdrop : dropWinner (ownerEntries vs p) = l₁ ++ l₂ := herase
  have key : ∀ m : Nat, holdsAt vs m p → loserB vs p m = false → (assignedAt vs m, m) = w := by
    intro m hm hlm
    have hmem : (assignedAt vs m, m) ∈ ownerEntries vs p :=
      ownerEntries_mem_iff.mpr ⟨hm, rfl⟩
    rw [hsplit] at hmem
    have hnotdrop : (assignedAt vs m, m) ∉ l₁ ++ l₂ := by
      intro hmem₂
      have hlt : loserB vs p m = true := by
        show (dropWinner (ownerEntries vs p)).any (fun e => e.2 == m) = true
        rw [hdrop]
        exact List.any_eq_true.mpr ⟨(assignedAt vs m, m), hmem₂, by simp⟩
      rw [hlt] at hlm
      cases hlm
    rcases List.mem_append.mp hmem with h | h
    · exact absurd (List.mem_append_left _ h) hnotdrop
    · rcases List.mem_cons.mp h with h | h
      · exact h
      · exact absurd (List.mem_append_right _ h) hnotdrop
  have hi₂ := key i hi hli
  have hj₂ := key j hj hlj
  have : (assignedAt vs i, i).2 = (assignedAt vs j, j).2 := by rw [hi₂, hj₂]
  simpa using this

theorem contested_winner {vs : List VendorInfo} {p : String}
    (hnd : ∀ vi ∈ vs, (vendorPatterns vi).Nodup)
    (hcont : contestedB vs p = true) :
    ∃ w : Nat × Nat, w ∈ ownerEntries vs p ∧ w.1 = maxFst (ownerEntries vs p) ∧
      loserB vs p w.2 = false := by
  have hlen : 1 < (ownerEntries vs p).length := of_decide_eq_true hcont
  have hne : ownerEntries vs p ≠ [] := by
    intro h
    rw [h] at hlen
    simp at hlen
  obtain ⟨e, he, hmax⟩ := maxFst_attained hne
  have hpe : (fun x : Nat × Nat => x.1 == maxFst (ownerEntries vs p)) e = true := by
    simp [hmax]
  obtain ⟨w, l₁, l₂, -, hw, hsplit, herase⟩ :=
    @List.exists_of_eraseP (Nat × Nat) (fun x => x.1 == maxFst (ownerEntries vs p))
      (ownerEntries vs p) e he hpe
  have hdrop : dropWinner (ownerEntries vs p) = l₁ ++ l₂ := herase
  refine ⟨w, by rw [hsplit]; exact List.mem_append_right _ (List.mem_cons_self _ _),
    by simpa using hw, ?_⟩
  have hsnd : ((ownerEntries vs p).map Prod.snd).Nodup := ownerEntriesFrom_snd_nodup vs hnd 0
  rw [hsplit, List.map_append, List.map_cons] at hsnd
  show (dropWinner (ownerEntries vs p)).any (fun e => e.2 == w.2) = false
  rw [hdrop]
  cases hany : (l₁ ++ l₂).any (fun e => e.2 == w.2) with
  | false => rfl
  | true =>
    obtain ⟨x, hx, hxw⟩ := List.any_eq_true.mp hany
    have hxw₂ : x.2 = w.2 := by simpa using hxw
    rw [List.nodup_append] at hsnd
    obtain ⟨hA, hB, hdis⟩ := hsnd
    rcases List.mem_append.mp hx with h | h
    · exact (hdis (List.mem_map.mpr ⟨x, h, hxw₂⟩) (List.mem_cons_self _ _)).elim
    · exact ((List.nodup_cons.mp hB).1 (List.mem_map.mpr ⟨x, h, hxw₂⟩)).elim

/-- C5: refuted as stated.  A vendor whose pattern list contains the same
    string twice makes the snapshot pattern_owners hold two entries for one
    and the same vendor: the pass counts the pattern as ambiguous (resolved
    count 1) although only one vendor holds it (multi-holder count 0), and
    the stripping even removes the pattern from its sole holder. -/
theorem claim_C5_counterexample :
    (resolveAmbiguity [VendorInfo.mk 1 1 "A"
        (some (VendorRules.mk ["P", "P"] none none none true 1 0 10000))]).2 = 1 ∧
    multiHolderCount [VendorInfo.mk 1 1 "A"
        (some (VendorRules.mk ["P", "P"] none none none true 1 0 10000))] = 0 ∧
    ((resolveAmbiguity [VendorInfo.mk 1 1 "A"
        (some (VendorRules.mk ["P", "P"] none none none true 1 0 10000))]).1.map
      vendorPatterns) = [[]] := by
  refine ⟨by decide, by decide, by decide⟩

/-- C5 (amended: per-vendor pattern lists taken duplicate-free, which is how
    the per-vendor rebuild writes them): after the ambiguity pass every
    pattern string is held by at most one vendor; every pattern with more
    than one holder before the pass keeps a holder of maximal assigned_count
    and every other prior holder loses it; and the returned resolved count
    equals the number of patterns that had more than one holder. -/
theorem claim_C5_amended (vs : List VendorInfo)
    (hnd : ∀ vi ∈ vs, (vendorPatterns vi).Nodup) :
    (∀ p i j, holdsAt (resolveAmbiguity vs).1 i p → holdsAt (resolveAmbiguity vs).1 j p → i = j) ∧
    (∀ p, 1 < (holders vs p).length →
      ∃ w, holdsAt vs w p ∧ holdsAt (resolveAmbiguity vs).1 w p ∧
        (∀ i, holdsAt vs i p → assignedAt vs i ≤ assignedAt vs w) ∧
        (∀ i, holdsAt vs i p → i ≠ w → ¬ holdsAt (resolveAmbiguity vs).1 i p)) ∧
    (resolveAmbiguity vs).2 = multiHolderCount vs := by
  refine ⟨?_, ?_, ?_⟩
  · intro p i j h1 h2
    rw [holdsAt_resolve] at h1 h2
    obtain ⟨hi, hCLi⟩ := h1
    obtain ⟨hj, hCLj⟩ := h2
    cases hC : contestedB vs p with
    | false =>
      have hnotlt : ¬ 1 < (ownerEntries vs p).length := of_decide_eq_false hC
      have hmi : i ∈ (ownerEntries vs p).map Prod.snd :=
        List.mem_map.mpr ⟨(assignedAt vs i, i), ownerEntries_mem_iff.mpr ⟨hi, rfl⟩, rfl⟩
      have hmj : j ∈ (ownerEntries vs p).map Prod.snd :=
        List.mem_map.mpr ⟨(assignedAt vs j, j), ownerEntries_mem_iff.mpr ⟨hj, rfl⟩, rfl⟩
      exact two_mem_length_le_one hmi hmj (by rw [List.length_map]; omega)
    | true =>
      rw [hC, Bool.true_and] at hCLi hCLj
      exact resolve_unique_aux hi hj hCLi hCLj hC
  · intro p hp
    have hlen : (ownerEntries vs p).length = (holders vs p).length :=
      ownerEntriesFrom_length vs hnd 0 0
    have hcont : contestedB vs p = true := decide_eq_true (by rw [hlen]; exact hp)
    obtain ⟨w, hwmem, hwmax, hwnl⟩ := contested_winner hnd hcont
    obtain ⟨hwholds, hwcount⟩ := ownerEntries_mem_iff.mp hwmem
    refine ⟨w.2, hwholds, ?_, ?_, ?_⟩
    · rw [holdsAt_resolve]
      exact ⟨hwholds, by rw [hwnl, Bool.and_false]⟩
    · intro i hi
      have hmem : (assignedAt vs i, i) ∈ ownerEntries vs p := ownerEntries_mem_iff.mpr ⟨hi, rfl⟩
      have hle := maxFst_le hmem
      rw [← hwmax] at hle
      rw [← hwcount]
      exact hle
    · intro i hi hne hres
      rw [holdsAt_resolve] at hres
      obtain ⟨-, hCL⟩ := hres
      rw [hcont, Bool.true_and] at hCL
      exact hne (resolve_unique_aux hi hwholds hCL hwnl hcont)
  · show (allPatternList vs).countP (fun p => decide (1 < (ownerEntries vs p).length))
        = (allPatternList vs).countP (fun p => decide (1 < (holders vs p).length))
    apply List.countP_congr
    intro q hq
    have hlq : (ownerEntries vs q).length = (holders vs q).length :=
      ownerEntriesFrom_length vs hnd 0 0
    rw [hlq]

theorem claim_C5_amended_witness :
    (∀ vi ∈ [VendorInfo.mk 1 1 "A"
        (some (VendorRules.mk ["ACME"] none none none true 10 0 10000)),
      VendorInfo.mk 2 1 "B"
        (some (VendorRules.mk ["ACME"] none none none true 3 0 10000))],
      (vendorPatterns vi).Nodup) ∧
    ((∀ p i j,
        holdsAt (resolveAmbiguity [VendorInfo.mk 1 1 "A"
            (some (VendorRules.mk ["ACME"] none none none true 10 0 10000)),
          VendorInfo.mk 2 1 "B"
            (some (VendorRules.mk ["ACME"] none none none true 3 0 10000))]).1 i p →
        holdsAt (resolveAmbiguity [VendorInfo.mk 1 1 "A"
            (some (VendorRules.mk ["ACME"] none none none true 10 0 10000)),
          VendorInfo.mk 2 1 "B"
            (some (VendorRules.mk ["ACME"] none none none true 3 0 10000))]).1 j p → i = j) ∧
    (∀ p, 1 < (holders [VendorInfo.mk 1 1 "A"
            (some (VendorRules.mk ["ACME"] none none none true 10 0 10000)),
          VendorInfo.mk 2 1 "B"
            (some (VendorRules.mk ["ACME"] none none none true 3 0 10000))] p).length →
      ∃ w, holdsAt [VendorInfo.mk 1 1 "A"
            (some (VendorRules.mk ["ACME"] none none none true 10 0 10000)),
          VendorInfo.mk 2 1 "B"
            (some (VendorRules.mk ["ACME"] none none none true 3 0 10000))] w p ∧
        holdsAt (resolveAmbiguity [VendorInfo.mk 1 1 "A"
            (some (VendorRules.mk ["ACME"] none none none true 10 0 10000)),
          VendorInfo.mk 2 1 "B"
            (some (VendorRules.mk ["ACME"] none none none true 3 0 10000))]).1 w p ∧
        (∀ i, holdsAt [VendorInfo.mk 1 1 "A"
              (some (VendorRules.mk ["ACME"] none none none true 10 0 10000)),
            VendorInfo.mk 2 1 "B"
              (some (VendorRules.mk ["ACME"] none none none true 3 0 10000))] i p →
          assignedAt [VendorInfo.mk 1 1 "A"
              (some (VendorRules.mk ["ACME"] none none none true 10 0 10000)),
            VendorInfo.mk 2 1 "B"
              (some (VendorRules.mk ["ACME"] none none none true 3 0 10000))] i ≤
          assignedAt [VendorInfo.mk 1 1 "A"
              (some (VendorRules.mk ["ACME"] none none none true 10 0 10000)),
            VendorInfo.mk 2 1 "B"
              (some (VendorRules.mk ["ACME"] none none none true 3 0 10000))] w) ∧
        (∀ i, holdsAt [VendorInfo.mk 1 1 "A"
              (some (VendorRules.mk ["ACME"] none none none true 10 0 10000)),
            VendorInfo.mk 2 1 "B"
              (some (VendorRules.mk ["ACME"] none none none true 3 0 10000))] i p → i ≠ w →
          ¬ holdsAt (resolveAmbiguity [VendorInfo.mk 1 1 "A"
              (some (VendorRules.mk ["ACME"] none none none true 10 0 10000)),
            VendorInfo.mk 2 1 "B"
              (some (VendorRules.mk ["ACME"] none none none true 3 0 10000))]).1 i p)) ∧
    (resolveAmbiguity [VendorInfo.mk 1 1 "A"
        (some (VendorRules.mk ["ACME"] none none none true 10 0 10000)),
      VendorInfo.mk 2 1 "B"
        (some (VendorRules.mk ["ACME"] none none none true 3 0 10000))]).2 =
      multiHolderCount [VendorInfo.mk 1 1 "A"
          (some (VendorRules.mk ["ACME"] none none none true 10 0 10000)),
        VendorInfo.mk 2 1 "B"
          (some (VendorRules.mk ["ACME"] none none none true 3 0 10000))]) :=
  ⟨by decide,
    claim_C5_amended [VendorInfo.mk 1 1 "A"
        (some (VendorRules.mk ["ACME"] none none none true 10 0 10000)),
      VendorInfo.mk 2 1 "B"
        (some (VendorRules.mk ["ACME"] none none none true 3 0 10000))] (by decide)⟩

theorem rebuildStep_eq (txs : List Transaction) (acc : List VendorInfo × Nat) (vi : VendorInfo) :
    rebuildStep txs acc vi =
      if (vendorTxs txs vi.vendor_name).isEmpty then (acc.1 ++ [vi], acc.2)
      else (acc.1 ++ [rebuildOne vi (vendorTxs txs vi.vendor_name)], acc.2 + 1) := rfl

theorem rebuildFold_fst (txs : List Transaction) :
    ∀ (vendors : List VendorInfo) (acc : List VendorInfo × Nat),
      (vendors.foldl (rebuildStep txs) acc).1 =
        acc.1 ++ vendors.map (fun vi =>
          if (vendorTxs txs vi.vendor_name).isEmpty then vi
          else rebuildOne vi (vendorTxs txs vi.vendor_name)) := by
  intro vendors
  induction vendors with
  | nil => intro acc; simp
  | cons v rest ih =>
    intro acc
    rw [List.foldl_cons, ih, List.map_cons, rebuildStep_eq]
    by_cases hv : (vendorTxs txs v.vendor_name).isEmpty
    · rw [if_pos hv, if_pos hv]
      simp
    · rw [if_neg hv, if_neg hv]
      simp

theorem rebuildPhase_fst (vendors : List VendorInfo) (txs : List Transaction) :
    (rebuildPhase vendors txs).1 = vendors.map (fun vi =>
      if (vendorTxs txs vi.vendor_name).isEmpty then vi
      else rebuildOne vi (vendorTxs txs vi.vendor_name)) := by
  rw [rebuildPhase, rebuildFold_fst]
  rfl

theorem rebuildOne_rules_fields (vi : VendorInfo) (vtxs : List Transaction) :
    ∃ r₂, (rebuildOne vi vtxs).rules = some r₂ ∧
      r₂.corrected_count = (match vi.rules with | some r => r.corrected_count | none => 0) ∧
      r₂.assigned_count = vtxs.length ∧
      r₂.confidence = computeConfidence r₂.corrected_count vtxs.length ∧
      r₂.enabled = (!(match vi.rules with | some r => r.enabled == false | none => false) &&
        decide (7000 ≤ r₂.confidence)) :=
  ⟨_, rfl, rfl, rfl, rfl, rfl⟩

theorem stripSet_rules_fields (vs : List VendorInfo) (ps : List String) (j : Nat)
    (vi : VendorInfo) (r : VendorRules) (hr : vi.rules = some r) :
    (stripSet vs ps j vi).rules =
      some { r with patterns := r.patterns.filter (keepPat vs ps j) } := by
  simp [stripSet, hr]

theorem rebuild_get?_some {vendors : List VendorInfo} {txs : List Transaction} {j : Nat}
    {x : VendorInfo} (hph : (rebuildPhase vendors txs).1.get? j = some x) :
    (rebuild_vendor_rules vendors txs).1.get? j =
      some (stripSet (rebuildPhase vendors txs).1
        (allPatternList (rebuildPhase vendors txs).1) j x) := by
  have h := resolveAmbiguity_get? (rebuildPhase vendors txs).1 j
  rw [hph] at h
  simp only [Option.map] at h
  exact h

/-- C6: a rule disabled before a rebuild is still disabled afterwards (the
    rebuilt payload computes enabled as (not was_disabled) and confidence at
    least 0.70, and untouched or pattern-stripped payloads keep their enabled
    flag); a rebuilt vendor that was not previously disabled gets enabled set
    to true exactly when the recomputed confidence reaches 0.70. -/
theorem claim_C6 (vendors : List VendorInfo) (txs : List Transaction) (j : Nat)
    (vi : VendorInfo) (hj : vendors.get? j = some vi) :
    (∀ r, vi.rules = some r → r.enabled = false →
      ∃ vi₂ r₂, (rebuild_vendor_rules vendors txs).1.get? j = some vi₂ ∧
        vi₂.rules = some r₂ ∧ r₂.enabled = false) ∧
    ((vendorTxs txs vi.vendor_name).isEmpty = false →
      (∀ r, vi.rules = some r → r.enabled = true) →
      ∃ vi₂ r₂, (rebuild_vendor_rules vendors txs).1.get? j = some vi₂ ∧
        vi₂.rules = some r₂ ∧
        r₂.assigned_count = (vendorTxs txs vi.vendor_name).length ∧
        r₂.confidence = computeConfidence r₂.corrected_count r₂.assigned_count ∧
        (r₂.enabled = true ↔ 7000 ≤ r₂.confidence)) := by
  constructor
  · intro r hr hdis
    cases hv : (vendorTxs txs vi.vendor_name).isEmpty with
    | true =>
      have hphase : (rebuildPhase vendors txs).1.get? j = some vi := by
        rw [rebuildPhase_fst, List.get?_map, hj]
        simp only [Option.map, hv]
        rfl
      refine ⟨_, _, rebuild_get?_some hphase,
        stripSet_rules_fields _ _ _ vi r hr, ?_⟩
      exact hdis
    | false =>
      have hphase : (rebuildPhase vendors txs).1.get? j =
          some (rebuildOne vi (vendorTxs txs vi.vendor_name)) := by
        rw [rebuildPhase_fst, List.get?_map, hj]
        simp only [Option.map, hv]
        rfl
      obtain ⟨r₂, hr₂, hcor, hass, hconf, hen⟩ :=
        rebuildOne_rules_fields vi (vendorTxs txs vi.vendor_name)
      refine ⟨_, _, rebuild_get?_some hphase,
        stripSet_rules_fields _ _ _ _ r₂ hr₂, ?_⟩
      show r₂.enabled = false
      rw [hen]
      simp [hr, hdis]
  · intro hv hnotdis
    have hphase : (rebuildPhase vendors txs).1.get? j =
        some (rebuildOne vi (vendorTxs txs vi.vendor_name)) := by
      rw [rebuildPhase_fst, List.get?_map, hj]
      simp only [Option.map, hv]
      rfl
    obtain ⟨r₂, hr₂, hcor, hass, hconf, hen⟩ :=
      rebuildOne_rules_fields vi (vendorTxs txs vi.vendor_name)
    refine ⟨_, _, rebuild_get?_some hphase,
      stripSet_rules_fields _ _ _ _ r₂ hr₂, ?_, ?_, ?_⟩
    · exact hass
    · show r₂.confidence = computeConfidence r₂.corrected_count r₂.assigned_count
      rw [hconf, hass]
    · show r₂.enabled = true ↔ 7000 ≤ r₂.confidence
      rw [hen]
      cases hvr : vi.rules with
      | none => simp [hvr]
      | some r => simp [hvr, hnotdis r hvr]

theorem claim_C6_witness :
    ([VendorInfo.mk 1 1 "A" (some (VendorRules.mk ["OLD"] none none none true 5 0 10000))].get? 0 =
      some (VendorInfo.mk 1 1 "A" (some (VendorRules.mk ["OLD"] none none none true 5 0 10000)))) ∧
    ((∀ r, (VendorInfo.mk 1 1 "A"
        (some (VendorRules.mk ["OLD"] none none none true 5 0 10000))).rules = some r →
      r.enabled = false →
      ∃ vi₂ r₂, (rebuild_vendor_rules
          [VendorInfo.mk 1 1 "A" (some (VendorRules.mk ["OLD"] none none none true 5 0 10000))]
          [{ id := "t1", account_id := 1, transaction_date := "d",
             description := "STARBUCKS STORE 123", amount := -400, source_file := "f",
             raw_data := CsvRow.mk "d" "-4.00" "" "" "STARBUCKS STORE 123",
             vendor := some "A" }]).1.get? 0 = some vi₂ ∧
        vi₂.rules = some r₂ ∧ r₂.enabled = false) ∧
    ((vendorTxs [{ id := "t1", account_id := 1, transaction_date := "d",
                   description := "STARBUCKS STORE 123", amount := -400, source_file := "f",
                   raw_data := CsvRow.mk "d" "-4.00" "" "" "STARBUCKS STORE 123",
                   vendor := some "A" }] "A").isEmpty = false →
      (∀ r, (VendorInfo.mk 1 1 "A"
          (some (VendorRules.mk ["OLD"] none none none true 5 0 10000))).rules = some r →
        r.enabled = true) →
      ∃ vi₂ r₂, (rebuild_vendor_rules
          [VendorInfo.mk 1 1 "A" (some (VendorRules.mk ["OLD"] none none none true 5 0 10000))]
          [{ id := "t1", account_id := 1, transaction_date := "d",
             description := "STARBUCKS STORE 123", amount := -400, source_file := "f",
             raw_data := CsvRow.mk "d" "-4.00" "" "" "STARBUCKS STORE 123",
             vendor := some "A" }]).1.get? 0 = some vi₂ ∧
        vi₂.rules = some r₂ ∧
        r₂.assigned_count = (vendorTxs
          [{ id := "t1", account_id := 1, transaction_date := "d",
             description := "STARBUCKS STORE 123", amount := -400, source_file := "f",
             raw_data := CsvRow.mk "d" "-4.00" "" "" "STARBUCKS STORE 123",
             vendor := some "A" }] "A").length ∧
        r₂.confidence = computeConfidence r₂.corrected_count r₂.assigned_count ∧
        (r₂.enabled = true ↔ 7000 ≤ r₂.confidence))) :=
  ⟨rfl,
    claim_C6
      [VendorInfo.mk 1 1 "A" (some (VendorRules.mk ["OLD"] none none none true 5 0 10000))]
      [{ id := "t1", account_id := 1, transaction_date := "d",
         description := "STARBUCKS STORE 123", amount := -400, source_file := "f",
         raw_data := CsvRow.mk "d" "-4.00" "" "" "STARBUCKS STORE 123",
         vendor := some "A" }]
      0
      (VendorInfo.mk 1 1 "A" (some (VendorRules.mk ["OLD"] none none none true 5 0 10000)))
      rfl⟩

theorem correctionStep_rules_eq (vi : VendorInfo) (r : VendorRules) (hr : vi.rules = some r) :
    ∃ r₂, (correctionStep vi).rules = some r₂ ∧ confidenceInvariant r₂ := by
  by_cases hc : computeConfidence (r.corrected_count + 1) r.assigned_count < 7000
  · refine ⟨{ r with
              corrected_count := r.corrected_count + 1
              confidence := computeConfidence (r.corrected_count + 1) r.assigned_count
              enabled := false }, ?_, ?_⟩
    · simp only [correctionStep, hr]
      rw [if_pos hc]
    · show computeConfidence (r.corrected_count + 1) r.assigned_count =
        computeConfidence (r.corrected_count + 1) r.assigned_count
      rfl
  · refine ⟨{ r with
              corrected_count := r.corrected_count + 1
              confidence := computeConfidence (r.corrected_count + 1) r.assigned_count }, ?_, ?_⟩
    · simp only [correctionStep, hr]
      rw [if_neg hc]
    · show computeConfidence (r.corrected_count + 1) r.assigned_count =
        computeConfidence (r.corrected_count + 1) r.assigned_count
      rfl

/-- C1: refuted as stated.  A vendor rule satisfying the confidence equation
    (assigned 10, corrected 3, confidence 0.7000) breaks it after a pending
    suggestion with five transaction ids is approved: approve_suggestion adds
    5 to assigned_count but never recomputes confidence, leaving 0.7000 where
    the equation now requires round(1 - 3/15, 4) = 0.8000. -/
theorem claim_C1_counterexample :
    (VendorRules.mk ["P"] none none none true 10 3 7000).confidence =
      computeConfidence (VendorRules.mk ["P"] none none none true 10 3 7000).corrected_count
        (VendorRules.mk ["P"] none none none true 10 3 7000).assigned_count ∧
    (approve_suggestion (Db.mk []
        [VendorInfo.mk 1 1 "V" (some (VendorRules.mk ["P"] none none none true 10 3 7000))]
        [ImportSuggestion.mk 1 1 (some 1) "V" none none "P"
          ["a", "b", "c", "d", "e"] "pending"]) 1 none).2 = Except.ok () ∧
    (approve_suggestion (Db.mk []
        [VendorInfo.mk 1 1 "V" (some (VendorRules.mk ["P"] none none none true 10 3 7000))]
        [ImportSuggestion.mk 1 1 (some 1) "V" none none "P"
          ["a", "b", "c", "d", "e"] "pending"]) 1 none).1.vendors =
      [VendorInfo.mk 1 1 "V" (some (VendorRules.mk ["P"] none none none true 15 3 7000))] ∧
    (VendorRules.mk ["P"] none none none true 15 3 7000).confidence ≠
      computeConfidence (VendorRules.mk ["P"] none none none true 15 3 7000).corrected_count
        (VendorRules.mk ["P"] none none none true 15 3 7000).assigned_count := by
  refine ⟨by decide, by rfl, by decide, by decide⟩

/-- C1 (amended: the confidence equation is (re)established by a rules
    rebuild and by the manual-correction penalty, but suggestion approval
    only adds the record count to assigned_count and keeps every other rule
    field, so the equation is generally broken right after an approval):
    a rebuilt vendor's payload satisfies the equation; every vendor row
    after update_transaction is unchanged or satisfies the equation; every
    vendor row after approve_suggestion is unchanged or differs from a prior
    row only by assigned_count increased by the suggestion's record count. -/
theorem claim_C1_amended
    (vendors : List VendorInfo) (txs : List Transaction) (j : Nat) (vi : VendorInfo)
    (hj : vendors.get? j = some vi)
    (hv : (vendorTxs txs vi.vendor_name).isEmpty = false)
    (tx : Transaction) (u : TransactionUpdate) (db : Db) (sid : Nat)
    (body : Option SuggestionApproveBody) :
    (∃ vi₂ r₂, (rebuild_vendor_rules vendors txs).1.get? j = some vi₂ ∧
      vi₂.rules = some r₂ ∧ confidenceInvariant r₂) ∧
    (∀ vi₂ ∈ (update_transaction tx u vendors).2, vi₂ ∈ vendors ∨
      ∃ r₂, vi₂.rules = some r₂ ∧ confidenceInvariant r₂) ∧
    (∀ vi₂ ∈ (approve_suggestion db sid body).1.vendors, vi₂ ∈ db.vendors ∨
      ∃ vi₃, vi₃ ∈ db.vendors ∧ ∃ r₃ n, vi₃.rules = some r₃ ∧
        vi₂.rules = some { r₃ with assigned_count := r₃.assigned_count + n }) := by
  refine ⟨?_, ?_, ?_⟩
  · have hphase : (rebuildPhase vendors txs).1.get? j =
        some (rebuildOne vi (vendorTxs txs vi.vendor_name)) := by
      rw [rebuildPhase_fst, List.get?_map, hj]
      simp only [Option.map, hv]
      rfl
    obtain ⟨r₂, hr₂, hcor, hass, hconf, hen⟩ :=
      rebuildOne_rules_fields vi (vendorTxs txs vi.vendor_name)
    refine ⟨_, _, rebuild_get?_some hphase,
      stripSet_rules_fields _ _ _ _ r₂ hr₂, ?_⟩
    show r₂.confidence = computeConfidence r₂.corrected_count r₂.assigned_count
    rw [hconf, hass]
  · intro vi₂ hmem
    have hmem₂ : vi₂ ∈ (if tx.auto_categorized && u.vendor.isSome then
        match tx.vendor with
        | some old_vendor =>
          if old_vendor != "" && u.vendor.join != some old_vendor then
            updateFirst (fun vi => vi.account_id == tx.account_id && vi.vendor_name == old_vendor)
              correctionStep vendors
          else vendors
        | none => vendors
      else vendors) := hmem
    by_cases hb : (tx.auto_categorized && u.vendor.isSome) = true
    · rw [if_pos hb] at hmem₂
      cases hov : tx.vendor with
      | none =>
        simp only [hov] at hmem₂
        exact Or.inl hmem₂
      | some old_vendor =>
        simp only [hov] at hmem₂
        by_cases hg : (old_vendor != "" && u.vendor.join != some old_vendor) = true
        · rw [if_pos hg] at hmem₂
          rcases updateFirst_mem hmem₂ with h | ⟨y, hy, hxy⟩
          · exact Or.inl h
          · cases hr : y.rules with
            | none =>
              left
              rw [hxy]
              have hcy : correctionStep y = y := by
                simp [correctionStep, hr]
              rw [hcy]
              exact hy
            | some r =>
              right
              rw [hxy]
              exact correctionStep_rules_eq y r hr
        · rw [if_neg hg] at hmem₂
          exact Or.inl hmem₂
    · rw [if_neg hb] at hmem₂
      exact Or.inl hmem₂
  · intro vi₂ hmem
    cases hf : db.suggestions.find? (fun s => s.id == sid) with
    | none =>
      have h : (approve_suggestion db sid body).1.vendors = db.vendors := by
        simp only [approve_suggestion, hf]
      rw [h] at hmem
      exact Or.inl hmem
    | some s =>
      by_cases hst : (s.status != "pending") = true
      · have h : (approve_suggestion db sid body).1.vendors = db.vendors := by
          simp only [approve_suggestion, hf]
          rw [if_pos hst]
        rw [h] at hmem
        exact Or.inl hmem
      · have h : (approve_suggestion db sid body).1.vendors =
            (if natTruthy s.vendor_info_id then
              updateFirst (fun vi => some vi.id == s.vendor_info_id)
                (fun vi =>
                  match vi.rules with
                  | some r => { vi with rules := some { r with
                      assigned_count := r.assigned_count + s.transaction_ids.length } }
                  | none => vi) db.vendors
            else db.vendors) := by
          simp only [approve_suggestion, hf]
          rw [if_neg hst]
        rw [h] at hmem
        by_cases hn : natTruthy s.vendor_info_id = true
        · rw [if_pos hn] at hmem
          rcases updateFirst_mem hmem with hm | ⟨y, hy, hxy⟩
          · exact Or.inl hm
          · cases hr : y.rules with
            | none =>
              left
              rw [hxy]
              simp only [hr]
              exact hy
            | some r =>
              right
              refine ⟨y, hy, r, s.transaction_ids.length, hr, ?_⟩
              rw [hxy]
              simp only [hr]
        · rw [if_neg hn] at hmem
          exact Or.inl hmem

theorem claim_C1_amended_witness :
    ([VendorInfo.mk 1 1 "A" (some (VendorRules.mk ["OLD"] none none none true 5 0 10000))].get? 0 =
      some (VendorInfo.mk 1 1 "A" (some (VendorRules.mk ["OLD"] none none none true 5 0 10000)))) ∧
    ((vendorTxs [{ id := "t1", account_id := 1, transaction_date := "d",
                   description := "STARBUCKS STORE 123", amount := -400, source_file := "f",
                   raw_data := CsvRow.mk "d" "-4.00" "" "" "STARBUCKS STORE 123",
                   vendor := some "A" }] "A").isEmpty = false) ∧
    ((∃ vi₂ r₂, (rebuild_vendor_rules
        [VendorInfo.mk 1 1 "A" (some (VendorRules.mk ["OLD"] none none none true 5 0 10000))]
        [{ id := "t1", account_id := 1, transaction_date := "d",
           description := "STARBUCKS STORE 123", amount := -400, source_file := "f",
           raw_data := CsvRow.mk "d" "-4.00" "" "" "STARBUCKS STORE 123",
           vendor := some "A" }]).1.get? 0 = some vi₂ ∧
      vi₂.rules = some r₂ ∧ confidenceInvariant r₂) ∧
    (∀ vi₂ ∈ (update_transaction
        { id := "t2", account_id := 1, transaction_date := "d", description := "X",
          amount := -400, source_file := "f", raw_data := CsvRow.mk "d" "-4.00" "" "" "X",
          vendor := some "OLD", auto_categorized := true }
        { vendor := some (some "NEW") }
        [VendorInfo.mk 1 1 "A" (some (VendorRules.mk ["OLD"] none none none true 5 0 10000))]).2,
      vi₂ ∈ [VendorInfo.mk 1 1 "A" (some (VendorRules.mk ["OLD"] none none none true 5 0 10000))] ∨
      ∃ r₂, vi₂.rules = some r₂ ∧ confidenceInvariant r₂) ∧
    (∀ vi₂ ∈ (approve_suggestion (Db.mk []
          [VendorInfo.mk 1 1 "V" (some (VendorRules.mk ["P"] none none none true 10 3 7000))]
          [ImportSuggestion.mk 1 1 (some 1) "V" none none "P"
            ["a", "b", "c", "d", "e"] "pending"]) 1 none).1.vendors,
      vi₂ ∈ (Db.mk []
          [VendorInfo.mk 1 1 "V" (some (VendorRules.mk ["P"] none none none true 10 3 7000))]
          [ImportSuggestion.mk 1 1 (some 1) "V" none none "P"
            ["a", "b", "c", "d", "e"] "pending"]).vendors ∨
      ∃ vi₃, vi₃ ∈ (Db.mk []
          [VendorInfo.mk 1 1 "V" (some (VendorRules.mk ["P"] none none none true 10 3 7000))]
          [ImportSuggestion.mk 1 1 (some 1) "V" none none "P"
            ["a", "b", "c", "d", "e"] "pending"]).vendors ∧ ∃ r₃ n, vi₃.rules = some r₃ ∧
        vi₂.rules = some { r₃ with assigned_count := r₃.assigned_count + n })) :=
  ⟨rfl, by decide,
    claim_C1_amended
      [VendorInfo.mk 1 1 "A" (some (VendorRules.mk ["OLD"] none none none true 5 0 10000))]
      [{ id := "t1", account_id := 1, transaction_date := "d",
         description := "STARBUCKS STORE 123", amount := -400, source_file := "f",
         raw_data := CsvRow.mk "d" "-4.00" "" "" "STARBUCKS STORE 123",
         vendor := some "A" }]
      0
      (VendorInfo.mk 1 1 "A" (some (VendorRules.mk ["OLD"] none none none true 5 0 10000)))
      rfl (by decide)
      { id := "t2", account_id := 1, transaction_date := "d", description := "X",
        amount := -400, source_file := "f", raw_data := CsvRow.mk "d" "-4.00" "" "" "X",
        vendor := some "OLD", auto_categorized := true }
      { vendor := some (some "NEW") }
      (Db.mk []
        [VendorInfo.mk 1 1 "V" (some (VendorRules.mk ["P"] none none none true 10 3 7000))]
        [ImportSuggestion.mk 1 1 (some 1) "V" none none "P"
          ["a", "b", "c", "d", "e"] "pending"])
      1 none⟩
